import Mathlib

/-!
Verification development for the bookoutlet-goodreads matching core.

Python strings are modelled as Lean strings, with the character-level
operations of the source (strip, replace, upper, regex shape checks)
implemented over the underlying character lists.  Python floats are
modelled as exact rationals and Python ints as unbounded naturals or
integers, which is faithful for every property stated in this file.
-/

namespace BookOutlet

/-! ## utils/isbn.py -/

/-- Python str.strip(): drop whitespace from both ends. -/
def pyStrip (l : List Char) : List Char :=
  ((l.dropWhile Char.isWhitespace).reverse.dropWhile Char.isWhitespace).reverse

/-- Chain isbn.strip().replace('-', '').replace(' ', '').upper() from
normalize_isbn: single-character replacement by the empty string is a filter. -/
def cleanIsbnChars (l : List Char) : List Char :=
  (((pyStrip l).filter (fun c => c ≠ '-')).filter (fun c => c ≠ ' ')).map Char.toUpper

/-- Shape test of normalize_isbn for ISBN-10: nine digits followed by a digit
or X (the first regex alternative of the source). -/
def shape10 (l : List Char) : Bool :=
  l.length == 10 && (l.take 9).all Char.isDigit &&
    (l.drop 9).all (fun c => c.isDigit || c == 'X')

/-- Shape test of normalize_isbn for ISBN-13: thirteen digits. -/
def shape13 (l : List Char) : Bool :=
  l.length == 13 && l.all Char.isDigit

/-- normalize_isbn from utils/isbn.py. -/
def normalize_isbn (isbn : String) : Option String :=
  if isbn = "" then none
  else
    let normalized := cleanIsbnChars isbn.data
    if shape10 normalized || shape13 normalized then some (String.mk normalized)
    else none

/-- Python int(c) for a digit character. -/
def digitVal (c : Char) : Nat := c.toNat - 48

/-- Python str(d) for a single digit value. -/
def digitChar (n : Nat) : Char := Char.ofNat (48 + n)

/-- Digit value used by the ISBN-10 branch of validate_isbn: 'X' counts as 10. -/
def isbnCharVal (c : Char) : Nat := if c = 'X' then 10 else digitVal c

/-- Weighted checksum loop of isbn10_to_isbn13, and of the ISBN-13 branch of
validate_isbn whose loop is identical: weight 1 at even index, 3 at odd. -/
def sum13 : List Char → Nat → Nat
  | [], _ => 0
  | c :: cs, i => digitVal c * (if i % 2 == 0 then 1 else 3) + sum13 cs (i + 1)

/-- Weighted checksum loop of the ISBN-10 branch of validate_isbn:
weights 10 down to 1 over the ten characters, with 'X' = 10. -/
def sum10 : List Char → Nat → Nat
  | [], _ => 0
  | c :: cs, i => isbnCharVal c * (10 - i) + sum10 cs (i + 1)

/-- Weighted checksum loop inside get_all_isbn_variants (ISBN-13 to ISBN-10
branch): weights 10 down to 2 over the nine base digits. -/
def sum10d : List Char → Nat → Nat
  | [], _ => 0
  | c :: cs, i => digitVal c * (10 - i) + sum10d cs (i + 1)

/-- isbn10_to_isbn13 from utils/isbn.py. -/
def isbn10_to_isbn13 (isbn10 : String) : Option String :=
  match normalize_isbn isbn10 with
  | none => none
  | some n =>
    if n.data.length ≠ 10 then none
    else
      let base := ['9', '7', '8'] ++ n.data.take 9
      let check_sum := sum13 base 0
      let check_digit := (10 - check_sum % 10) % 10
      some (String.mk (base ++ [digitChar check_digit]))

/-- validate_isbn from utils/isbn.py. -/
def validate_isbn (isbn : String) : Bool :=
  match normalize_isbn isbn with
  | none => false
  | some n =>
    if n.data.length == 10 then sum10 n.data 0 % 11 == 0
    else if n.data.length == 13 then sum13 n.data 0 % 10 == 0
    else false

/-- Body of the ISBN-13 to ISBN-10 branch of get_all_isbn_variants
(utils/isbn.py lines 189-205); the spec names this operation to_isbn10. -/
def isbn13_to_isbn10_core (n : List Char) : List Char :=
  let base := (n.drop 3).take 9
  let check_sum := sum10d base 0
  let check_digit := (11 - check_sum % 11) % 11
  if check_digit == 10 then base ++ ['X'] else base ++ [digitChar check_digit]

/-- Conversion the spec names to_isbn10, with exactly the domain used by
get_all_isbn_variants: normalized 13-digit ISBNs starting with 978. -/
def to_isbn10 (isbn : String) : Option String :=
  match normalize_isbn isbn with
  | none => none
  | some n =>
    if n.data.length == 13 && n.data.take 3 == ['9', '7', '8'] then
      some (String.mk (isbn13_to_isbn10_core n.data))
    else none

/-- get_all_isbn_variants from utils/isbn.py. -/
def get_all_isbn_variants (isbn : String) : List String :=
  match normalize_isbn isbn with
  | none => []
  | some n =>
    if n.data.length == 10 then
      match isbn10_to_isbn13 n with
      | some isbn13 => [n, isbn13]
      | none => [n]
    else if n.data.length == 13 && n.data.take 3 == ['9', '7', '8'] then
      [n, String.mk (isbn13_to_isbn10_core n.data)]
    else [n]

example : normalize_isbn "0-262-04648-2" = some "0262046482" := by decide
example : normalize_isbn "978-0-262-04648-0" = some "9780262046480" := by decide
example : normalize_isbn "043942089x" = some "043942089X" := by decide
example : isbn10_to_isbn13 "0262046482" = some "9780262046480" := by decide
example : isbn10_to_isbn13 "043942089X" = some "9780439420891" := by decide
example : validate_isbn "0262046482" = true := by decide
example : validate_isbn "9780262046480" = true := by decide
example : validate_isbn "0262046483" = false := by decide
example : to_isbn10 "9780262046480" = some "0262046482" := by decide
example : get_all_isbn_variants "0262046482" = ["0262046482", "9780262046480"] := by decide
example : get_all_isbn_variants "9780262046480" = ["9780262046480", "0262046482"] := by decide

/-! ### Character-level facts -/

theorem digit_toNat (c : Char) (h : c.isDigit = true) : 48 ≤ c.toNat ∧ c.toNat ≤ 57 := by
  simp [Char.isDigit] at h
  exact ⟨h.1, h.2⟩

theorem char_toNat_ne {c d : Char} (h : c.toNat ≠ d.toNat) : c ≠ d := by
  intro hc; exact h (by rw [hc])

theorem digit_not_ws (c : Char) (h : c.isDigit = true) : c.isWhitespace = false := by
  have hb := digit_toNat c h
  cases hw : c.isWhitespace
  · rfl
  · exfalso
    simp only [Char.isWhitespace, Bool.or_eq_true, decide_eq_true_eq] at hw
    rcases hw with ((h1 | h1) | h1) | h1 <;> (subst h1; revert hb; decide)

theorem digit_toUpper (c : Char) (h : c.isDigit = true) : c.toUpper = c := by
  have hb := digit_toNat c h
  unfold Char.toUpper
  rw [if_neg]
  omega

theorem digit_ne_dash (c : Char) (h : c.isDigit = true) : c ≠ '-' := by
  have hb := digit_toNat c h
  have h45 : ('-').toNat = 45 := rfl
  refine char_toNat_ne ?_
  omega

theorem digit_ne_space (c : Char) (h : c.isDigit = true) : c ≠ ' ' := by
  have hb := digit_toNat c h
  have h32 : (' ').toNat = 32 := rfl
  refine char_toNat_ne ?_
  omega

theorem digit_ne_X (c : Char) (h : c.isDigit = true) : c ≠ 'X' := by
  have hb := digit_toNat c h
  have h88 : ('X').toNat = 88 := rfl
  refine char_toNat_ne ?_
  omega

theorem digit_digitChar (c : Char) (h : c.isDigit = true) : digitChar (digitVal c) = c := by
  have hb := digit_toNat c h
  unfold digitChar digitVal
  have heq : 48 + (c.toNat - 48) = c.toNat := by omega
  rw [heq, Char.ofNat_toNat]

theorem digitChar_isDigit : ∀ k, k < 10 → (digitChar k).isDigit = true := by decide

theorem digitVal_digitChar : ∀ k, k < 10 → digitVal (digitChar k) = k := by decide

theorem digitVal_le (c : Char) (h : c.isDigit = true) : digitVal c ≤ 9 := by
  have hb := digit_toNat c h
  unfold digitVal
  omega

/-- Characters allowed in a normalized ISBN: digits plus 'X'. -/
def isbnChar (c : Char) : Bool := c.isDigit || c == 'X'

theorem isbnChar_not_ws (c : Char) (h : isbnChar c = true) : c.isWhitespace = false := by
  rcases Bool.or_eq_true_iff.mp h with hd | hx
  · exact digit_not_ws c hd
  · obtain rfl := beq_iff_eq.mp hx
    decide

theorem isbnChar_ne_dash (c : Char) (h : isbnChar c = true) : c ≠ '-' := by
  rcases Bool.or_eq_true_iff.mp h with hd | hx
  · exact digit_ne_dash c hd
  · obtain rfl := beq_iff_eq.mp hx
    decide

theorem isbnChar_ne_space (c : Char) (h : isbnChar c = true) : c ≠ ' ' := by
  rcases Bool.or_eq_true_iff.mp h with hd | hx
  · exact digit_ne_space c hd
  · obtain rfl := beq_iff_eq.mp hx
    decide

theorem isbnChar_toUpper (c : Char) (h : isbnChar c = true) : c.toUpper = c := by
  rcases Bool.or_eq_true_iff.mp h with hd | hx
  · exact digit_toUpper c hd
  · obtain rfl := beq_iff_eq.mp hx
    decide

theorem isbnCharVal_le (c : Char) (h : isbnChar c = true) : isbnCharVal c ≤ 10 := by
  unfold isbnCharVal
  split
  · exact Nat.le_refl 10
  · rcases Bool.or_eq_true_iff.mp h with hd | hx
    · exact Nat.le_trans (digitVal_le c hd) (by omega)
    · exact absurd (beq_iff_eq.mp hx) (by assumption)

/-! ### Fixed point of normalization on well-shaped character lists -/

theorem dropWhile_eq_self_of {p : Char → Bool} {l : List Char}
    (h : ∀ c ∈ l, p c = false) : l.dropWhile p = l := by
  cases l with
  | nil => rfl
  | cons c cs =>
    rw [List.dropWhile_cons, h c (List.mem_cons_self c cs)]
    simp

theorem map_eq_self_of {f : Char → Char} {l : List Char}
    (h : ∀ c ∈ l, f c = c) : l.map f = l := by
  induction l with
  | nil => rfl
  | cons c cs ih =>
    rw [List.map_cons, h c (List.mem_cons_self c cs),
      ih (fun d hd => h d (List.mem_cons_of_mem c hd))]

theorem pyStrip_eq_self {l : List Char} (h : ∀ c ∈ l, c.isWhitespace = false) :
    pyStrip l = l := by
  unfold pyStrip
  rw [dropWhile_eq_self_of h,
    dropWhile_eq_self_of (fun c hc => h c (List.mem_reverse.mp hc)), List.reverse_reverse]

theorem filter_ne_eq_self {l : List Char} {d : Char} (h : ∀ c ∈ l, c ≠ d) :
    l.filter (fun c => c ≠ d) = l :=
  List.filter_eq_self.mpr (fun c hc => by simpa using h c hc)

theorem cleanIsbnChars_eq_self {l : List Char} (h : ∀ c ∈ l, isbnChar c = true) :
    cleanIsbnChars l = l := by
  unfold cleanIsbnChars
  rw [pyStrip_eq_self (fun c hc => isbnChar_not_ws c (h c hc))]
  rw [filter_ne_eq_self (fun c hc => isbnChar_ne_dash c (h c hc))]
  rw [filter_ne_eq_self (fun c hc => isbnChar_ne_space c (h c hc))]
  exact map_eq_self_of (fun c hc => isbnChar_toUpper c (h c hc))

theorem shape_chars {l : List Char} (h : (shape10 l || shape13 l) = true) :
    ∀ c ∈ l, isbnChar c = true := by
  intro c hc
  rcases Bool.or_eq_true_iff.mp h with h10 | h13
  · unfold shape10 at h10
    simp only [Bool.and_eq_true, beq_iff_eq, List.all_eq_true] at h10
    obtain ⟨⟨-, hdig⟩, hlast⟩ := h10
    rw [← List.take_append_drop 9 l] at hc
    rcases List.mem_append.mp hc with hm | hm
    · exact Bool.or_eq_true_iff.mpr (Or.inl (hdig c hm))
    · exact hlast c hm
  · unfold shape13 at h13
    simp only [Bool.and_eq_true, beq_iff_eq, List.all_eq_true] at h13
    exact Bool.or_eq_true_iff.mpr (Or.inl (h13.2 c hc))

theorem normalize_isbn_mk_self {l : List Char} (hl : (shape10 l || shape13 l) = true) :
    normalize_isbn (String.mk l) = some (String.mk l) := by
  have hne : String.mk l ≠ "" := by
    intro he
    have hdata : l = [] := congrArg String.data he
    subst hdata
    revert hl
    decide
  unfold normalize_isbn
  rw [if_neg hne]
  have hclean : cleanIsbnChars (String.mk l).data = l :=
    cleanIsbnChars_eq_self (shape_chars hl)
  simp only [hclean, hl, if_true]

theorem normalize_isbn_some {x n : String} (h : normalize_isbn x = some n) :
    n.data = cleanIsbnChars x.data ∧ (shape10 n.data || shape13 n.data) = true := by
  unfold normalize_isbn at h
  split at h
  · exact absurd h (by simp)
  · dsimp only at h
    split at h
    · obtain rfl := Option.some_inj.mp h.symm
      exact ⟨rfl, by assumption⟩
    · exact absurd h (by simp)

/-! ### Checksum sum lemmas -/

theorem sum13_append (a b : List Char) (i : Nat) :
    sum13 (a ++ b) i = sum13 a i + sum13 b (i + a.length) := by
  induction a generalizing i with
  | nil => simp [sum13]
  | cons c cs ih =>
    simp only [List.cons_append, sum13, List.length_cons, List.append_eq]
    rw [ih (i + 1)]
    have harith : i + 1 + cs.length = i + (cs.length + 1) := by omega
    rw [harith, Nat.add_assoc]

theorem sum10_append (a b : List Char) (i : Nat) :
    sum10 (a ++ b) i = sum10 a i + sum10 b (i + a.length) := by
  induction a generalizing i with
  | nil => simp [sum10]
  | cons c cs ih =>
    simp only [List.cons_append, sum10, List.length_cons, List.append_eq]
    rw [ih (i + 1)]
    have harith : i + 1 + cs.length = i + (cs.length + 1) := by omega
    rw [harith, Nat.add_assoc]

theorem sum10d_append (a b : List Char) (i : Nat) :
    sum10d (a ++ b) i = sum10d a i + sum10d b (i + a.length) := by
  induction a generalizing i with
  | nil => simp [sum10d]
  | cons c cs ih =>
    simp only [List.cons_append, sum10d, List.length_cons, List.append_eq]
    rw [ih (i + 1)]
    have harith : i + 1 + cs.length = i + (cs.length + 1) := by omega
    rw [harith, Nat.add_assoc]

theorem sum10_eq_sum10d {l : List Char} (i : Nat) (h : ∀ c ∈ l, c ≠ 'X') :
    sum10 l i = sum10d l i := by
  induction l generalizing i with
  | nil => rfl
  | cons c cs ih =>
    unfold sum10 sum10d isbnCharVal
    rw [if_neg (h c (List.mem_cons_self c cs)),
      ih (i + 1) (fun d hd => h d (List.mem_cons_of_mem c hd))]

theorem string_mk_data (s : String) : String.mk s.data = s := rfl

/-! ### Round-trip lemmas for the two ISBN conversions -/

theorem string_data_mk (l : List Char) : (String.mk l).data = l := rfl

theorem roundtrip_10_to_13 {x n : String}
    (hn : normalize_isbn x = some n) (hv : validate_isbn x = true)
    (hlen : n.data.length = 10) :
    (isbn10_to_isbn13 x).bind to_isbn10 = some n := by
  obtain ⟨-, hsh⟩ := normalize_isbn_some hn
  have h10 : shape10 n.data = true := by
    rcases Bool.or_eq_true_iff.mp hsh with h | h
    · exact h
    · exfalso
      unfold shape13 at h
      simp only [Bool.and_eq_true, beq_iff_eq] at h
      omega
  unfold shape10 at h10
  simp only [Bool.and_eq_true, beq_iff_eq, List.all_eq_true] at h10
  obtain ⟨⟨-, hdig⟩, hlast⟩ := h10
  have hlen9 : (n.data.take 9).length = 9 := by
    rw [List.length_take]; omega
  have hlend : (n.data.drop 9).length = 1 := by
    rw [List.length_drop]; omega
  obtain ⟨c, hc⟩ := List.length_eq_one.mp hlend
  have hsplit : n.data.take 9 ++ [c] = n.data := by
    rw [← hc]; exact List.take_append_drop 9 n.data
  set ds := n.data.take 9 with hds
  set k13 := (10 - sum13 ('9' :: '7' :: '8' :: ds) 0 % 10) % 10 with hk13
  -- step 1: compute isbn10_to_isbn13 x
  have h13 : isbn10_to_isbn13 x =
      some (String.mk ('9' :: '7' :: '8' :: (ds ++ [digitChar k13]))) := by
    simp only [isbn10_to_isbn13, hn]
    rw [if_neg (by omega)]
    simp only [List.cons_append, List.nil_append]
  rw [h13, Option.some_bind]
  have hk13lt : k13 < 10 := by
    rw [hk13]; omega
  -- step 2: the produced list is a well-shaped 13-digit list
  have hydig : ∀ e ∈ '9' :: '7' :: '8' :: (ds ++ [digitChar k13]), e.isDigit = true := by
    intro e he
    simp only [List.mem_cons, List.mem_append, List.mem_singleton, List.mem_nil_iff,
      or_false] at he
    rcases he with rfl | rfl | rfl | hm | rfl
    · decide
    · decide
    · decide
    · exact hdig e hm
    · exact digitChar_isDigit k13 hk13lt
  have hylen : ('9' :: '7' :: '8' :: (ds ++ [digitChar k13])).length = 13 := by
    simp [hlen9]
  have hysh : shape13 ('9' :: '7' :: '8' :: (ds ++ [digitChar k13])) = true := by
    unfold shape13
    simp only [Bool.and_eq_true, beq_iff_eq, List.all_eq_true]
    exact ⟨hylen, hydig⟩
  -- step 3: to_isbn10 of the produced string
  have hnorm : normalize_isbn (String.mk ('9' :: '7' :: '8' :: (ds ++ [digitChar k13]))) =
      some (String.mk ('9' :: '7' :: '8' :: (ds ++ [digitChar k13]))) :=
    normalize_isbn_mk_self (Bool.or_eq_true_iff.mpr (Or.inr hysh))
  simp only [to_isbn10, hnorm, string_data_mk]
  rw [if_pos (by
    simp only [Bool.and_eq_true, beq_iff_eq]
    exact ⟨hylen, rfl⟩)]
  -- step 4: the core conversion recovers ds ++ [c]
  have hdrop : ((('9' :: '7' :: '8' :: (ds ++ [digitChar k13])).drop 3).take 9) = ds := by
    simp only [List.drop_succ_cons, List.drop_zero]
    rw [← hlen9]
    exact List.take_left ds [digitChar k13]
  simp only [isbn13_to_isbn10_core, hdrop]
  -- the validate equation
  have hval : (sum10d ds 0 + isbnCharVal c) % 11 = 0 := by
    simp only [validate_isbn, hn, hlen] at hv
    norm_num at hv
    rw [← hsplit, sum10_append] at hv
    rw [sum10_eq_sum10d 0 (fun d hd => digit_ne_X d (hdig d hd))] at hv
    simp only [hlen9, Nat.zero_add] at hv
    unfold sum10 at hv
    simpa using hv
  have hcx : isbnChar c = true := by
    have hmem : c ∈ n.data.drop 9 := by
      rw [hc]; exact List.mem_singleton_self c
    exact hlast c hmem
  have hvle : isbnCharVal c ≤ 10 := isbnCharVal_le c hcx
  have hkey : (11 - sum10d ds 0 % 11) % 11 = isbnCharVal c := by omega
  rw [hkey]
  by_cases hX : c = 'X'
  · subst hX
    rw [if_pos (by rw [isbnCharVal]; simp)]
    rw [hsplit, string_mk_data]
  · have hcd : c.isDigit = true := by
      rcases Bool.or_eq_true_iff.mp hcx with h | h
      · exact h
      · exact absurd (beq_iff_eq.mp h) hX
    have hval9 : isbnCharVal c = digitVal c := by
      rw [isbnCharVal, if_neg hX]
    rw [if_neg (by
      rw [hval9]
      have hd9 := digitVal_le c hcd
      simp only [beq_iff_eq]
      omega)]
    rw [hval9, digit_digitChar c hcd, hsplit, string_mk_data]

theorem finish13 (base : List Char) (e : Char) (hblen : base.length = 9)
    (hbdig : ∀ c ∈ base, c.isDigit = true) (he : isbnChar e = true)
    (c13 : Char) (hc13 : c13.isDigit = true)
    (hval : (sum13 ('9' :: '7' :: '8' :: base) 0 + digitVal c13) % 10 = 0) :
    isbn10_to_isbn13 (String.mk (base ++ [e])) =
      some (String.mk ('9' :: '7' :: '8' :: (base ++ [c13]))) := by
  have hzdig : (base ++ [e]).length = 10 := by
    simp [hblen]
  have hzsh : shape10 (base ++ [e]) = true := by
    unfold shape10
    simp only [Bool.and_eq_true, beq_iff_eq, List.all_eq_true]
    refine ⟨⟨hzdig, ?_⟩, ?_⟩
    · intro c hc
      rw [← hblen, List.take_left] at hc
      exact hbdig c hc
    · intro c hc
      have hdrop : (base ++ [e]).drop 9 = [e] := by
        rw [← hblen]
        exact List.drop_left base [e]
      rw [hdrop, List.mem_singleton] at hc
      subst hc
      exact he
  have hnorm : normalize_isbn (String.mk (base ++ [e])) = some (String.mk (base ++ [e])) :=
    normalize_isbn_mk_self (Bool.or_eq_true_iff.mpr (Or.inl hzsh))
  simp only [isbn10_to_isbn13, hnorm, string_data_mk]
  rw [if_neg (by omega)]
  have htake : (base ++ [e]).take 9 = base := by
    rw [← hblen]
    exact List.take_left base [e]
  simp only [htake, List.cons_append, List.nil_append]
  have hd9 : digitVal c13 ≤ 9 := digitVal_le c13 hc13
  have hkey : (10 - sum13 ('9' :: '7' :: '8' :: base) 0 % 10) % 10 = digitVal c13 := by omega
  rw [hkey, digit_digitChar c13 hc13]

theorem roundtrip_13_to_10 {x n : String}
    (hn : normalize_isbn x = some n) (hv : validate_isbn x = true)
    (hlen : n.data.length = 13) (h978 : n.data.take 3 = ['9', '7', '8']) :
    (to_isbn10 x).bind isbn10_to_isbn13 = some n := by
  obtain ⟨-, hsh⟩ := normalize_isbn_some hn
  have h13 : shape13 n.data = true := by
    rcases Bool.or_eq_true_iff.mp hsh with h | h
    · exfalso
      unfold shape10 at h
      simp only [Bool.and_eq_true, beq_iff_eq] at h
      omega
    · exact h
  unfold shape13 at h13
  simp only [Bool.and_eq_true, beq_iff_eq, List.all_eq_true] at h13
  obtain ⟨-, hdig⟩ := h13
  -- decompose n.data as '9' :: '7' :: '8' :: (base ++ [c13])
  have hblen : ((n.data.drop 3).take 9).length = 9 := by
    rw [List.length_take, List.length_drop]
    omega
  have hrest1 : (((n.data.drop 3)).drop 9).length = 1 := by
    rw [List.length_drop, List.length_drop]
    omega
  obtain ⟨c13, hc13eq⟩ := List.length_eq_one.mp hrest1
  set base := (n.data.drop 3).take 9 with hbase
  have hsplitr : base ++ [c13] = n.data.drop 3 := by
    rw [← hc13eq]
    exact List.take_append_drop 9 (n.data.drop 3)
  have hsplit : ('9' :: '7' :: '8' :: (base ++ [c13])) = n.data := by
    rw [hsplitr]
    have h3 : n.data.take 3 ++ n.data.drop 3 = n.data := List.take_append_drop 3 n.data
    rw [h978] at h3
    simpa using h3
  have hbdig : ∀ c ∈ base, c.isDigit = true := by
    intro c hc
    refine hdig c ?_
    rw [← hsplit]
    simp [hc]
  have hcdig : c13.isDigit = true := by
    refine hdig c13 ?_
    rw [← hsplit]
    simp
  -- the validate equation for the 13-digit string
  have hval : (sum13 ('9' :: '7' :: '8' :: base) 0 + digitVal c13) % 10 = 0 := by
    simp only [validate_isbn, hn, hlen] at hv
    norm_num at hv
    have hassoc : ('9' :: '7' :: '8' :: base) ++ [c13] = n.data := by
      rw [← hsplit]
      rfl
    rw [← hassoc, sum13_append] at hv
    have hplen : ('9' :: '7' :: '8' :: base).length = 12 := by
      simp [hblen]
    rw [hplen] at hv
    unfold sum13 at hv
    simpa using hv
  -- compute to_isbn10 x
  simp only [to_isbn10, hn]
  rw [if_pos (by
    simp only [Bool.and_eq_true, beq_iff_eq]
    exact ⟨hlen, h978⟩)]
  rw [Option.some_bind]
  unfold isbn13_to_isbn10_core
  rw [← hbase]
  have hs10le : sum10d base 0 % 11 < 11 := Nat.mod_lt _ (by omega)
  set k10 := (11 - sum10d base 0 % 11) % 11 with hk10
  by_cases hk : k10 = 10
  · rw [if_pos (by rw [← hk10]; simp [hk])]
    rw [finish13 base 'X' hblen hbdig (by decide) c13 hcdig hval, hsplit, string_mk_data]
  · rw [if_neg (by rw [← hk10]; simp [hk])]
    have hk10le : k10 ≤ 9 := by
      have : k10 < 11 := by
        rw [hk10]; omega
      omega
    have hdigE : (digitChar k10).isDigit = true := digitChar_isDigit k10 (by omega)
    rw [finish13 base (digitChar k10) hblen hbdig
      (Bool.or_eq_true_iff.mpr (Or.inl hdigE)) c13 hcdig hval, hsplit, string_mk_data]

/-! ### C6: round-trip of the ISBN conversions -/

/-- C6 counterexample: the round-trip law as stated is false at the concrete
input "0262046483".  This string is shape-valid but checksum-invalid, so its
ISBN-13 conversion is defined, yet converting to ISBN-13 and back yields
"0262046482" and not normalize("0262046483") = "0262046483": the conversions
recompute check digits and so only round-trip on checksum-valid inputs. -/
theorem c6_roundtrip_counterexample :
    (isbn10_to_isbn13 "0262046483").isSome = true ∧
    normalize_isbn "0262046483" = some "0262046483" ∧
    (isbn10_to_isbn13 "0262046483").bind to_isbn10 = some "0262046482" ∧
    ("0262046482" : String) ≠ "0262046483" :=
  ⟨by decide, by decide, by decide, by decide⟩

/-- C6 (amended): for every checksum-valid ISBN-10 whose ISBN-13 conversion is
defined, converting to ISBN-13 and back to ISBN-10 yields the normalized
input, and symmetrically for every checksum-valid ISBN-13 starting with 978;
moreover the ISBN-13 to ISBN-10 conversion, which computes its check digit as
(11 - sum mod 11) mod 11 with 10 written as X, never fails on a normalized
13-digit ISBN starting with 978. -/
theorem c6_isbn_roundtrip {x n : String}
    (hn : normalize_isbn x = some n) (hv : validate_isbn x = true) :
    (n.data.length = 10 → (isbn10_to_isbn13 x).bind to_isbn10 = some n) ∧
    (n.data.length = 13 → n.data.take 3 = ['9', '7', '8'] →
      (to_isbn10 x).bind isbn10_to_isbn13 = some n ∧ (to_isbn10 x).isSome = true) := by
  refine ⟨fun hlen => roundtrip_10_to_13 hn hv hlen,
    fun hlen h978 => ⟨roundtrip_13_to_10 hn hv hlen h978, ?_⟩⟩
  simp only [to_isbn10, hn]
  rw [if_pos (by
    simp only [Bool.and_eq_true, beq_iff_eq]
    exact ⟨hlen, h978⟩)]
  rfl

/-- C6 witness: the amended round-trip law applied at the spec's own pair of
examples, in both directions. -/
theorem c6_isbn_roundtrip_witness :
    (isbn10_to_isbn13 "0262046482").bind to_isbn10 = some "0262046482" ∧
    (to_isbn10 "9780262046480").bind isbn10_to_isbn13 = some "9780262046480" :=
  ⟨(c6_isbn_roundtrip (x := "0262046482") (n := "0262046482")
      (by decide) (by decide)).1 (by decide),
   ((c6_isbn_roundtrip (x := "9780262046480") (n := "9780262046480")
      (by decide) (by decide)).2 (by decide) (by decide)).1⟩

/-! ### C7: validate_isbn accepts the standard checksums and rejects
single-digit alterations -/

/-- Checksum condition written from the spec text (a refinement-side
definition, deliberately index-based rather than loop-based): an ISBN-10 is
valid mod 11 under weights 10..1 with 'X' = 10, an ISBN-13 is valid mod 10
under weights alternating 1,3. -/
def specChecksumOk (l : List Char) : Prop :=
  (l.length = 10 ∧
    ((List.range 10).foldr (fun j a => isbnCharVal (l.getD j '0') * (10 - j) + a) 0) % 11 = 0) ∨
  (l.length = 13 ∧
    ((List.range 13).foldr
      (fun j a => digitVal (l.getD j '0') * (if j % 2 = 0 then 1 else 3) + a) 0) % 10 = 0)

theorem sum10_eq_fold (l : List Char) (i : Nat) :
    sum10 l i = (List.range l.length).foldr
      (fun j a => isbnCharVal (l.getD j '0') * (10 - (i + j)) + a) 0 := by
  induction l generalizing i with
  | nil => rfl
  | cons c cs ih =>
    rw [List.length_cons, List.range_succ_eq_map, List.foldr_cons, List.foldr_map]
    unfold sum10
    rw [ih (i + 1)]
    have harith : ∀ j : Nat, i + 1 + j = i + (j + 1) := fun j => by omega
    simp [harith]

theorem sum13_eq_fold (l : List Char) (i : Nat) :
    sum13 l i = (List.range l.length).foldr
      (fun j a => digitVal (l.getD j '0') * (if (i + j) % 2 = 0 then 1 else 3) + a) 0 := by
  induction l generalizing i with
  | nil => rfl
  | cons c cs ih =>
    rw [List.length_cons, List.range_succ_eq_map, List.foldr_cons, List.foldr_map]
    unfold sum13
    rw [ih (i + 1)]
    have harith : ∀ j : Nat, i + 1 + j = i + (j + 1) := fun j => by omega
    simp [harith, beq_iff_eq]

theorem sum10_eq_fold0 {l : List Char} (h : l.length = 10) :
    sum10 l 0 = (List.range 10).foldr
      (fun j a => isbnCharVal (l.getD j '0') * (10 - j) + a) 0 := by
  rw [sum10_eq_fold l 0, h]
  congr 1
  funext j a
  rw [Nat.zero_add]

theorem sum13_eq_fold0 {l : List Char} (h : l.length = 13) :
    sum13 l 0 = (List.range 13).foldr
      (fun j a => digitVal (l.getD j '0') * (if j % 2 = 0 then 1 else 3) + a) 0 := by
  rw [sum13_eq_fold l 0, h]
  congr 1
  funext j a
  rw [Nat.zero_add]

theorem validate_iff_spec {s n : String} (hn : normalize_isbn s = some n) :
    (validate_isbn s = true ↔ specChecksumOk n.data) := by
  obtain ⟨-, hsh⟩ := normalize_isbn_some hn
  have hlen : n.data.length = 10 ∨ n.data.length = 13 := by
    rcases Bool.or_eq_true_iff.mp hsh with h | h
    · unfold shape10 at h
      simp only [Bool.and_eq_true, beq_iff_eq] at h
      exact Or.inl h.1.1
    · unfold shape13 at h
      simp only [Bool.and_eq_true, beq_iff_eq] at h
      exact Or.inr h.1
  rcases hlen with hlen | hlen
  · simp only [validate_isbn, hn, hlen]
    norm_num
    unfold specChecksumOk
    rw [sum10_eq_fold0 hlen]
    constructor
    · intro h
      exact Or.inl ⟨hlen, h⟩
    · intro h
      rcases h with ⟨-, h⟩ | ⟨h13, -⟩
      · exact h
      · omega
  · simp only [validate_isbn, hn, hlen]
    norm_num
    unfold specChecksumOk
    rw [sum13_eq_fold0 hlen]
    constructor
    · intro h
      exact Or.inr ⟨hlen, h⟩
    · intro h
      rcases h with ⟨h10, -⟩ | ⟨-, h⟩
      · omega
      · exact h

theorem char_toNat_inj {c d : Char} (h : c ≠ d) : c.toNat ≠ d.toNat := by
  intro he
  apply h
  rw [← Char.ofNat_toNat c, he, Char.ofNat_toNat]

theorem sum10_set_int (l : List Char) (j : Nat) (c : Char) (hj : j < l.length) :
    (sum10 (l.set j c) 0 : ℤ) = (sum10 l 0 : ℤ) +
      ((isbnCharVal c : ℤ) - (isbnCharVal l[j] : ℤ)) * ((10 - j : ℕ) : ℤ) := by
  have hset : l.set j c = l.take j ++ c :: l.drop (j + 1) := by
    rw [List.set_eq_take_append_cons_drop, if_pos hj]
  have hself : l = l.take j ++ l[j] :: l.drop (j + 1) := by
    conv_lhs => rw [← List.take_append_drop j l]
    rw [List.drop_eq_getElem_cons hj]
  have hlenT : (l.take j).length = j := by
    rw [List.length_take]; omega
  have hA : sum10 (l.set j c) 0 =
      sum10 (l.take j) 0 + (isbnCharVal c * (10 - j) + sum10 (l.drop (j + 1)) (j + 1)) := by
    rw [hset, sum10_append, hlenT]
    simp only [Nat.zero_add]
    rfl
  have hB : sum10 l 0 =
      sum10 (l.take j) 0 + (isbnCharVal l[j] * (10 - j) + sum10 (l.drop (j + 1)) (j + 1)) := by
    conv_lhs => rw [hself]
    rw [sum10_append, hlenT]
    simp only [Nat.zero_add]
    rfl
  rw [hA, hB]
  push_cast
  ring

theorem sum13_set_int (l : List Char) (j : Nat) (c : Char) (hj : j < l.length) :
    (sum13 (l.set j c) 0 : ℤ) = (sum13 l 0 : ℤ) +
      ((digitVal c : ℤ) - (digitVal l[j] : ℤ)) * (if j % 2 == 0 then 1 else 3) := by
  have hset : l.set j c = l.take j ++ c :: l.drop (j + 1) := by
    rw [List.set_eq_take_append_cons_drop, if_pos hj]
  have hself : l = l.take j ++ l[j] :: l.drop (j + 1) := by
    conv_lhs => rw [← List.take_append_drop j l]
    rw [List.drop_eq_getElem_cons hj]
  have hlenT : (l.take j).length = j := by
    rw [List.length_take]; omega
  have hA : sum13 (l.set j c) 0 =
      sum13 (l.take j) 0 +
        (digitVal c * (if j % 2 == 0 then 1 else 3) + sum13 (l.drop (j + 1)) (j + 1)) := by
    rw [hset, sum13_append, hlenT]
    simp only [Nat.zero_add]
    rfl
  have hB : sum13 l 0 =
      sum13 (l.take j) 0 +
        (digitVal l[j] * (if j % 2 == 0 then 1 else 3) + sum13 (l.drop (j + 1)) (j + 1)) := by
    conv_lhs => rw [hself]
    rw [sum13_append, hlenT]
    simp only [Nat.zero_add]
    rfl
  rw [hA, hB]
  cases hpar : (j % 2 == 0) with
  | true =>
    simp only [hpar, if_true]
    push_cast
    ring
  | false =>
    simp only [hpar, Bool.false_eq_true, if_false]
    push_cast
    ring

theorem shape10_set {l : List Char} {j : Nat} {c : Char} (hsh : shape10 l = true)
    (hj : j < l.length) (hc : c.isDigit = true) : shape10 (l.set j c) = true := by
  unfold shape10 at hsh ⊢
  simp only [Bool.and_eq_true, beq_iff_eq, List.all_eq_true] at hsh ⊢
  obtain ⟨⟨hlen, hdig⟩, hlast⟩ := hsh
  have hcomm : (l.set j c).take 9 = (l.take 9).set j c := List.set_take
  refine ⟨⟨by rw [List.length_set]; exact hlen, ?_⟩, ?_⟩
  · intro d hd
    rw [hcomm] at hd
    rcases List.mem_or_eq_of_mem_set hd with hm | rfl
    · exact hdig d hm
    · exact hc
  · intro d hd
    by_cases hj9 : j < 9
    · rw [List.drop_set_of_lt c l hj9] at hd
      exact hlast d hd
    · have hj9' : j = 9 := by omega
      subst hj9'
      have hdrop : (l.set 9 c).drop 9 = [c] := by
        have hs : l.set 9 c = l.take 9 ++ c :: l.drop 10 := by
          rw [List.set_eq_take_append_cons_drop, if_pos hj]
        have hnil : l.drop 10 = [] := by
          apply List.drop_eq_nil_of_le
          omega
        have hlen9 : (l.take 9).length = 9 := by
          rw [List.length_take]; omega
        have hdl := List.drop_left (l.take 9) [c]
        rw [hlen9] at hdl
        rw [hs, hnil]
        exact hdl
      rw [hdrop, List.mem_singleton] at hd
      subst hd
      exact Bool.or_eq_true_iff.mpr (Or.inl hc)

theorem shape13_set {l : List Char} {j : Nat} {c : Char} (hsh : shape13 l = true)
    (hc : c.isDigit = true) : shape13 (l.set j c) = true := by
  unfold shape13 at hsh ⊢
  simp only [Bool.and_eq_true, beq_iff_eq, List.all_eq_true] at hsh ⊢
  obtain ⟨hlen, hdig⟩ := hsh
  refine ⟨by rw [List.length_set]; exact hlen, ?_⟩
  intro d hd
  rcases List.mem_or_eq_of_mem_set hd with hm | rfl
  · exact hdig d hm
  · exact hc

theorem validate_alteration {s n : String} (hn : normalize_isbn s = some n)
    (hv : validate_isbn s = true) (j : Nat) (c : Char) (hj : j < n.data.length)
    (hc : c.isDigit = true) (hne : c ≠ n.data[j]) :
    validate_isbn (String.mk (n.data.set j c)) = false := by
  obtain ⟨-, hsh⟩ := normalize_isbn_some hn
  have hoX : isbnChar (n.data[j]) = true := shape_chars hsh _ (List.getElem_mem hj)
  rcases Bool.or_eq_true_iff.mp hsh with h10 | h13
  · -- ISBN-10 branch
    have hlen : n.data.length = 10 := by
      unfold shape10 at h10
      simp only [Bool.and_eq_true, beq_iff_eq] at h10
      exact h10.1.1
    have hv10 : sum10 n.data 0 % 11 = 0 := by
      simp only [validate_isbn, hn, hlen] at hv
      norm_num at hv
      exact hv
    have hshset : shape10 (n.data.set j c) = true := shape10_set h10 hj hc
    have hnorm2 : normalize_isbn (String.mk (n.data.set j c)) =
        some (String.mk (n.data.set j c)) :=
      normalize_isbn_mk_self (Bool.or_eq_true_iff.mpr (Or.inl hshset))
    have hlens : (n.data.set j c).length = 10 := by
      rw [List.length_set]; exact hlen
    have hnz : sum10 (n.data.set j c) 0 % 11 ≠ 0 := by
      intro habs
      have hkey := sum10_set_int n.data j c hj
      have hb1 : isbnCharVal c ≤ 9 := by
        rw [isbnCharVal, if_neg (digit_ne_X c hc)]
        exact digitVal_le c hc
      have ho10 : isbnCharVal (n.data[j]) ≤ 10 := isbnCharVal_le _ hoX
      have hdneq : isbnCharVal c ≠ isbnCharVal (n.data[j]) := by
        rcases Bool.or_eq_true_iff.mp hoX with hod | hoXX
        · have h1 := digit_toNat c hc
          have h2 := digit_toNat _ hod
          have h3 := char_toNat_inj hne
          rw [isbnCharVal, if_neg (digit_ne_X c hc),
            isbnCharVal, if_neg (digit_ne_X _ hod)]
          unfold digitVal
          omega
        · obtain hX := beq_iff_eq.mp hoXX
          rw [hX, isbnCharVal, if_neg (digit_ne_X c hc)]
          have h9 := digitVal_le c hc
          have hX10 : isbnCharVal 'X' = 10 := rfl
          rw [hX10]
          omega
      have hj10 : j < 10 := by omega
      interval_cases j <;> (norm_num at hkey; omega)
    simp only [validate_isbn, hnorm2, string_data_mk, hlens]
    norm_num
    exact hnz
  · -- ISBN-13 branch
    have hlen : n.data.length = 13 := by
      unfold shape13 at h13
      simp only [Bool.and_eq_true, beq_iff_eq] at h13
      exact h13.1
    have hdigall : ∀ d ∈ n.data, d.isDigit = true := by
      unfold shape13 at h13
      simp only [Bool.and_eq_true, beq_iff_eq, List.all_eq_true] at h13
      exact h13.2
    have hodig : (n.data[j]).isDigit = true := hdigall _ (List.getElem_mem hj)
    have hv13 : sum13 n.data 0 % 10 = 0 := by
      simp only [validate_isbn, hn, hlen] at hv
      norm_num at hv
      exact hv
    have hshset : shape13 (n.data.set j c) = true := shape13_set h13 hc
    have hnorm2 : normalize_isbn (String.mk (n.data.set j c)) =
        some (String.mk (n.data.set j c)) :=
      normalize_isbn_mk_self (Bool.or_eq_true_iff.mpr (Or.inr hshset))
    have hlens : (n.data.set j c).length = 13 := by
      rw [List.length_set]; exact hlen
    have hnz : sum13 (n.data.set j c) 0 % 10 ≠ 0 := by
      intro habs
      have hkey := sum13_set_int n.data j c hj
      have hb1 : digitVal c ≤ 9 := digitVal_le c hc
      have hb2 : digitVal (n.data[j]) ≤ 9 := digitVal_le _ hodig
      have hdneq : digitVal c ≠ digitVal (n.data[j]) := by
        have h1 := digit_toNat c hc
        have h2 := digit_toNat _ hodig
        have h3 := char_toNat_inj hne
        unfold digitVal
        omega
      rcases Nat.mod_two_eq_zero_or_one j with hpar | hpar
      · simp only [hpar, Nat.zero_mod] at hkey
        norm_num at hkey
        omega
      · simp only [hpar] at hkey
        norm_num at hkey
        omega
    simp only [validate_isbn, hnorm2, string_data_mk, hlens]
    norm_num
    exact hnz

/-- C7: validate_isbn accepts exactly the strings whose normalized form
passes the standard checksum (ISBN-10 mod 11 with weights 10..1 and X = 10,
ISBN-13 mod 10 with weights alternating 1,3), rejects every single-digit
alteration of a valid ISBN, and in particular accepts "0262046482" and
rejects "0262046483". -/
theorem c7_validate_checksum :
    (∀ s n : String, normalize_isbn s = some n →
      (validate_isbn s = true ↔ specChecksumOk n.data)) ∧
    (∀ s n : String, normalize_isbn s = some n → validate_isbn s = true →
      ∀ (j : Nat) (c : Char) (hj : j < n.data.length), c.isDigit = true →
        c ≠ n.data[j] → validate_isbn (String.mk (n.data.set j c)) = false) ∧
    validate_isbn "0262046482" = true ∧ validate_isbn "0262046483" = false :=
  ⟨fun _ _ hn => validate_iff_spec hn,
   fun _ _ hn hv j c hj hc hne => validate_alteration hn hv j c hj hc hne,
   by decide, by decide⟩

/-- C7 witness: altering the last digit of the valid ISBN-10 "0262046482"
to '3' produces a string rejected by validate_isbn. -/
theorem c7_validate_checksum_witness :
    validate_isbn (String.mk (("0262046482" : String).data.set 9 '3')) = false :=
  c7_validate_checksum.2.1 "0262046482" "0262046482" (by decide) (by decide)
    9 '3' (by decide) (by decide) (by decide)

/-! ## search/scraper.py — title preprocessing

The seven parenthetical patterns of preprocess_title are modelled per
balanced segment: a whitespace-then-parenthesis group whose content matches
one of the seven patterns is removed together with the whitespace before it.
The source applies the greedy regexes sequentially, which agrees with this
model on titles whose parentheses are non-nested and non-overlapping; no
claim in this file depends on the parenthetical patterns beyond totality of
the preprocessing. -/

/-- Prefix test for character lists (first argument is the pattern). -/
def startsWithSeq : List Char → List Char → Bool
  | [], _ => true
  | _ :: _, [] => false
  | w :: ws, c :: cs => w == c && startsWithSeq ws cs

/-- Substring test for character lists (Python's in operator). -/
def hasSeq (w : List Char) : List Char → Bool
  | [] => startsWithSeq w []
  | c :: rest => startsWithSeq w (c :: rest) || hasSeq w rest

/-- Python's substring containment test on strings. -/
def strContains (hay needle : String) : Bool := hasSeq needle.data hay.data

/-- Substitution of the leading-article regex of preprocess_title: a leading
article (the, a, an) followed by whitespace is removed with that whitespace. -/
def dropArticle (l : List Char) : List Char :=
  match l with
  | 't' :: 'h' :: 'e' :: c :: rest =>
    if c.isWhitespace then (c :: rest).dropWhile Char.isWhitespace else l
  | 'a' :: 'n' :: c :: rest =>
    if c.isWhitespace then (c :: rest).dropWhile Char.isWhitespace else l
  | 'a' :: c :: rest =>
    if c.isWhitespace then (c :: rest).dropWhile Char.isWhitespace else l
  | _ => l

/-- Content up to the next close paren, plus the remainder after it. -/
def splitAtClose (l : List Char) : Option (List Char × List Char) :=
  let content := l.takeWhile (fun c => c ≠ ')')
  let rest := l.dropWhile (fun c => c ≠ ')')
  match rest with
  | [] => none
  | _ :: after => some (content, after)

/-- Match of the word book followed by whitespace and a digit, anywhere. -/
def hasBookNum : List Char → Bool
  | [] => false
  | c :: rest =>
    (startsWithSeq ['b', 'o', 'o', 'k'] (c :: rest) &&
      (match (c :: rest).drop 4 with
       | d :: tail =>
         d.isWhitespace &&
           (match tail.dropWhile Char.isWhitespace with
            | e :: _ => e.isDigit
            | [] => false)
       | [] => false)) ||
    hasBookNum rest

/-- Match of a hash sign immediately followed by a digit, anywhere. -/
def hasHashNum : List Char → Bool
  | [] => false
  | c :: rest =>
    (c == '#' && (match rest with
      | d :: _ => d.isDigit
      | [] => false)) ||
    hasHashNum rest

/-- Content is exactly the word volume, whitespace, digits. -/
def isVolumeNum (m : List Char) : Bool :=
  startsWithSeq ['v', 'o', 'l', 'u', 'm', 'e'] m &&
    (match m.drop 6 with
     | c :: rest =>
       c.isWhitespace &&
         (let d := rest.dropWhile Char.isWhitespace
          !d.isEmpty && d.all Char.isDigit)
     | [] => false)

/-- Content is exactly the abbreviation vol., optional whitespace, digits. -/
def isVolDotNum (m : List Char) : Bool :=
  startsWithSeq ['v', 'o', 'l', '.'] m &&
    (let d := (m.drop 4).dropWhile Char.isWhitespace
     !d.isEmpty && d.all Char.isDigit)

/-- Content is one or more digits. -/
def isAllNum (m : List Char) : Bool := !m.isEmpty && m.all Char.isDigit

/-- Union of the seven parenthetical patterns of preprocess_title; the input
has already been lowercased, which subsumes the ignore-case flags. -/
def parenTag (m : List Char) : Bool :=
  hasSeq ['s', 'e', 'r', 'i', 'e', 's'] m || hasBookNum m || hasHashNum m ||
    isVolumeNum m || isVolDotNum m || isAllNum m ||
    hasSeq ['e', 'd', 'i', 't', 'i', 'o', 'n'] m

/-- Removal of every parenthesised segment whose content matches parenTag,
together with the whitespace before it.  The accumulator holds the output
reversed; the fuel, at least the input length, bounds the recursion (every
step consumes at least one character). -/
def removeParenTags : Nat → List Char → List Char → List Char
  | 0, acc, l => acc.reverse ++ l
  | _ + 1, acc, [] => acc.reverse
  | fuel + 1, acc, c :: rest =>
    if c = '(' then
      match splitAtClose rest with
      | some (content, after) =>
        if parenTag content then
          removeParenTags fuel (acc.dropWhile Char.isWhitespace) after
        else removeParenTags fuel (c :: acc) rest
      | none => removeParenTags fuel (c :: acc) rest
    else removeParenTags fuel (c :: acc) rest

/-- Match of the ordinal suffixes st, nd, rd, th. -/
def ordSuffix (m : List Char) : Option (List Char) :=
  match m with
  | 's' :: 't' :: r => some r
  | 'n' :: 'd' :: r => some r
  | 'r' :: 'd' :: r => some r
  | 't' :: 'h' :: r => some r
  | _ => none

/-- Match of digits, an ordinal suffix, whitespace and the word edition at
the head of the list, returning the remainder after the match. -/
def matchOrdEdition (l : List Char) : Option (List Char) :=
  let digits := l.takeWhile Char.isDigit
  if digits.isEmpty then none
  else
    match ordSuffix (l.drop digits.length) with
    | none => none
    | some r =>
      match r with
      | c :: _ =>
        if c.isWhitespace then
          let r2 := r.dropWhile Char.isWhitespace
          if startsWithSeq ['e', 'd', 'i', 't', 'i', 'o', 'n'] r2 then some (r2.drop 7)
          else none
        else none
      | [] => none

/-- Substitution removing bare ordinal edition markers such as 2nd edition,
together with the preceding whitespace; fuel as in removeParenTags. -/
def removeOrdEdition : Nat → List Char → List Char → List Char
  | 0, acc, l => acc.reverse ++ l
  | _ + 1, acc, [] => acc.reverse
  | fuel + 1, acc, c :: rest =>
    match matchOrdEdition (c :: rest) with
    | some after => removeOrdEdition fuel (acc.dropWhile Char.isWhitespace) after
    | none => removeOrdEdition fuel (c :: acc) rest

/-- Python split(sep, 1) when sep occurs: the part before the first
occurrence and the part after it. -/
def pySplitFirst (sep : Char) (l : List Char) : Option (List Char × List Char) :=
  if l.contains sep then
    some (l.takeWhile (fun c => c ≠ sep), (l.dropWhile (fun c => c ≠ sep)).drop 1)
  else none

/-- Punctuation class removed by preprocess_title. -/
def punctChars : List Char := ['\'', '"', ':', ';', ',', '.', '[', ']', '(', ')']

/-- Removal of every punctuation-class character. -/
def stripPunct (l : List Char) : List Char := l.filter (fun c => !punctChars.contains c)

/-- Python str.split() on whitespace runs, dropping empty fields; fuel-based
recursion as above. -/
def splitWsF : Nat → List Char → List (List Char)
  | 0, _ => []
  | _ + 1, [] => []
  | fuel + 1, l =>
    let l1 := l.dropWhile Char.isWhitespace
    match l1 with
    | [] => []
    | _ :: _ =>
      let w := l1.takeWhile (fun c => !c.isWhitespace)
      w :: splitWsF fuel (l1.drop w.length)

def splitWs (l : List Char) : List (List Char) := splitWsF (l.length + 1) l

/-- Python join with single spaces. -/
def joinSpace : List (List Char) → List Char
  | [] => []
  | [w] => w
  | w :: ws => w ++ ' ' :: joinSpace ws

/-- Collapse of internal whitespace runs to single spaces plus strip: the
composite of the final whitespace substitution of preprocess_title with
strip(). -/
def collapseWs (l : List Char) : List Char := joinSpace (splitWs l)

/-- preprocess_title from search/scraper.py: (main title, subtitle). -/
def preprocess_title (title : String) : String × String :=
  let t1 := title.data.map Char.toLower
  let t2 := dropArticle t1
  let t3 := removeParenTags (t2.length + 1) [] t2
  let t4 := removeOrdEdition (t3.length + 1) [] t3
  match pySplitFirst ':' t4 with
  | some (m, sub) =>
    (String.mk (collapseWs (stripPunct (pyStrip m))), String.mk (pyStrip sub))
  | none => (String.mk (collapseWs (stripPunct t4)), "")

/-- get_title_variations from search/scraper.py. -/
def get_title_variations (title : String) : List String :=
  let pair := preprocess_title title
  let main_title := pair.1
  let subtitle := pair.2
  let variations := [main_title]
  if subtitle ≠ "" then
    let sub2 := collapseWs (stripPunct subtitle.data)
    let variations := variations ++ [String.mk (main_title.data ++ ' ' :: sub2)]
    let subtitle_words := splitWs sub2
    if subtitle_words.length > 3 then
      variations ++ [String.mk (main_title.data ++ ' ' :: joinSpace (subtitle_words.take 3))]
    else variations
  else variations

example : preprocess_title "The Apollo Murders" = ("apollo murders", "") := by decide
example : preprocess_title "A Title: Sub One Two Three Four (Series)" =
    ("title", "sub one two three four") := by decide
example : get_title_variations "A Title: Sub One Two Three Four" =
    ["title", "title sub one two three four", "title sub one two"] := by decide

/-! ## search/scraper.py — the scorer (find_title)

A candidate record is the dictionary produced by parse_books; per the data
model the title is required (the ISBN fast path indexes it without a
default), the remaining keys are optional.  The four fuzzywuzzy ratios are
an external library and are passed in as an abstract quadruple of functions
returning scores in Python ints; every theorem about the scorer is
quantified over them.  Python floats are modelled as exact rationals. -/

structure Candidate where
  title : String
  author : Option String := none
  price : Option String := none
  url : Option String := none
  cover_url : Option String := none
  isbn : Option String := none
deriving DecidableEq, Repr

structure MatchData where
  title : String
  author : String
  price : String
  url : String
  cover_url : String
  isbn : String
  match_type : String
  bonuses : Option (List String)
deriving DecidableEq, Repr

/-- Return shape of find_title: the normal 4-tuple, and the 3-tuple of the
early return behind the empty-titles safety check (scraper.py line 159),
which lacks the match-data component. -/
inductive FindResult where
  | ok (found : Bool) (best_match : String) (score : Nat) (match_data : Option MatchData)
  | truncated (found : Bool) (best_match : String) (score : Nat)
deriving DecidableEq, Repr

/-- The four fuzzywuzzy scoring functions (fuzz.ratio, fuzz.partial_ratio,
fuzz.token_sort_ratio, fuzz.token_set_ratio), abstract collaborators. -/
structure Fuzz where
  ratio : String → String → Nat
  partRatio : String → String → Nat
  tokenSortRatio : String → String → Nat
  tokenSetRatio : String → String → Nat

/-- Python str.lower(): the character-list form of String.toLower, written
over the data list so that concrete applications reduce in the kernel. -/
def pyLower (s : String) : String := String.mk (s.data.map Char.toLower)

/-- Python truthiness of an optional string: present and non-empty. -/
def optTruthy (o : Option String) : Bool := o.getD "" ≠ ""

/-- Body of the phase-1 loop test: candidate isbn truthy and its normalized
form a member of the query variant list (a Python None is never a member). -/
def isbnHit (variants : List String) (book : Candidate) : Bool :=
  let result_isbn := book.isbn.getD ""
  if result_isbn ≠ "" then
    match normalize_isbn result_isbn with
    | some r => variants.contains r
    | none => false
  else false

/-- Phase-1 ISBN exact-match scan of find_title (scraper.py lines 128-154):
first candidate in iteration order whose isbn hits the variant set. -/
def phase1 (query_isbn : Option String) (book_data : List Candidate) : Option Candidate :=
  match query_isbn with
  | some q => if q ≠ "" then book_data.find? (isbnHit (get_all_isbn_variants q)) else none
  | none => none

/-- Match dictionary returned by the phase-1 fast path; it has no bonuses
key, and carries the raw candidate isbn. -/
def phase1Data (book : Candidate) : MatchData :=
  { title := book.title, author := book.author.getD "", price := book.price.getD "",
    url := book.url.getD "", cover_url := book.cover_url.getD "",
    isbn := book.isbn.getD "", match_type := "isbn_exact", bonuses := none }

/-- Combination of the four ratios (scraper.py lines 191-211): the default
weighting 0.15, 0.20, 0.25, 0.40, replaced by 0.10, 0.10, 0.20, 0.60 when
either string is longer than 50 characters. -/
def baseWeighted (fz : Fuzz) (qv pc : String) : ℚ :=
  let r : ℚ := fz.ratio qv pc
  let p : ℚ := fz.partRatio qv pc
  let ts : ℚ := fz.tokenSortRatio qv pc
  let tset : ℚ := fz.tokenSetRatio qv pc
  let weighted := r * (15 / 100) + p * (20 / 100) + ts * (25 / 100) + tset * (40 / 100)
  if qv.length > 50 ∨ pc.length > 50 then
    r * (10 / 100) + p * (10 / 100) + ts * (20 / 100) + tset * (60 / 100)
  else weighted

/-- Per-pair weighted score of the fuzzy loop (scraper.py lines 191-263):
base weighting, short-title word-overlap penalty, length-difference penalty,
exact-main-title boost, and the query_authors-based adjustment. -/
def pairScore (fz : Fuzz) (query_authors : String → Option String) (title : String)
    (titles : List String) (book_data : List Candidate)
    (qv pc : String) (origIdx : Nat) : ℚ :=
  let w0 := baseWeighted fz qv pc
  let title_words := (splitWs qv.data).dedup
  let cand_words := (splitWs pc.data).dedup
  let common_words := title_words.filter (fun t => cand_words.contains t)
  let w1 := if title_words.length ≤ 3 ∧
      (common_words.length : ℚ) < (title_words.length : ℚ) / 2 then w0 * (7 / 10) else w0
  let len_diff := if qv.length ≥ pc.length then qv.length - pc.length else pc.length - qv.length
  let len_sum := qv.length + pc.length
  let w2 := if len_sum > 100 then (if len_diff > 30 then w1 * (95 / 100) else w1)
    else (if len_diff > 10 then w1 * (90 / 100) else w1)
  let main_query := (preprocess_title title).1
  let w3 := match titles[origIdx]? with
    | some t => if main_query = (preprocess_title t).1 then w2 * (12 / 10) else w2
    | none => w2
  let w4 := match query_authors title with
    | some qa =>
      if qa ≠ "" then
        match book_data[origIdx]? with
        | some bk =>
          match bk.author with
          | some ra =>
            let author_similarity : ℚ := (fz.tokenSetRatio (pyLower qa) (pyLower ra) : ℚ) / 100
            if author_similarity > 8 / 10 then w3 * (12 / 10)
            else if author_similarity < 4 / 10 then w3 * (7 / 10) else w3
          | none => w3
        | none => w3
      else w3
    | none => w3
  w4

/-- Flat list of candidate title variations tagged with the index of the
originating title (the two parallel lists of the source, zipped). -/
def candidateVariations (titles : List String) : List (String × Nat) :=
  titles.enum.flatMap (fun p =>
    let vs := get_title_variations p.2
    let vs := if vs = [] then [p.2] else vs
    vs.map (fun v => (v, p.1)))

/-- Rebinding of the query_author local inside the loop body (scraper.py
line 250): whenever the query_authors lookup carries a truthy entry for the
query title and the candidate record at the pair's originating index has an
author key, the function's query_author variable is reassigned to the
lowercased lookup value.  The hasattr test is always true (the attribute is
set in the constructor) and the surrounding try/except turns an
out-of-range index into a skip, mirrored by the getElem? match. -/
def qaRebind (query_authors : String → Option String) (title : String)
    (book_data : List Candidate) (idx : Nat) (qa : Option String) : Option String :=
  match query_authors title with
  | some a =>
    if a ≠ "" then
      match book_data[idx]? with
      | some bk =>
        match bk.author with
        | some _ => some (pyLower a)
        | none => qa
      | none => qa
    else qa
  | none => qa

/-- One iteration of the fuzzy loop body: the best-so-far update of scraper.py
lines 265-270 (score and index always updated on strict improvement, the
candidate record only behind the range check), paired with the line-250
rebinding of the query_author local. -/
def loopStep (fz : Fuzz) (query_authors : String → Option String) (title : String)
    (titles : List String) (book_data : List Candidate)
    (st : (ℚ × Int × Option Candidate) × Option String) (qv : String) (p : String × Nat) :
    (ℚ × Int × Option Candidate) × Option String :=
  let ws := pairScore fz query_authors title titles book_data qv p.1 p.2
  let best := if ws > st.1.1 then
      let bestData := if 0 ≤ (p.2 : Int) ∧ p.2 < book_data.length
        then book_data[p.2]? else st.1.2.2
      (ws, (p.2 : Int), bestData)
    else st.1
  (best, qaRebind query_authors title book_data p.2 st.2)

/-- Double loop of find_title over query variations and tagged candidate
variations: the best triple starts from (0, -1, none) and the carried
query_author local from the find_title argument. -/
def fuzzyLoop (fz : Fuzz) (query_authors : String → Option String) (title : String)
    (titles : List String) (book_data : List Candidate)
    (qvars : List String) (pairs : List (String × Nat)) (query_author : Option String) :
    (ℚ × Int × Option Candidate) × Option String :=
  qvars.foldl
    (fun st qv => pairs.foldl (fun st2 p => loopStep fz query_authors title titles book_data st2 qv p) st)
    ((0, -1, none), query_author)

/-- Phase-3 ISBN partial-match bonus (scraper.py lines 288-300), producing
the updated score, match type and bonus list. -/
def isbnPartialStep (query_isbn : Option String) (bmd : Candidate) (sp : Nat) :
    Nat × String × List String :=
  if optTruthy query_isbn ∧ optTruthy bmd.isbn then
    match normalize_isbn (query_isbn.getD ""), normalize_isbn (bmd.isbn.getD "") with
    | some qn, some rn =>
      if qn.data.take 9 = rn.data.take 9 then
        (min ((sp * 110) / 100) 100, "fuzzy_isbn_partial", ["isbn_partial"])
      else (sp, "fuzzy", [])
    | _, _ => (sp, "fuzzy", [])
  else (sp, "fuzzy", [])

/-- Phase-3 author exact-match bonus (scraper.py lines 302-312).  The float
products by 1.10 and 1.15 are modelled as exact rational products. -/
def authorBonusStep (fz : Fuzz) (query_author : Option String) (bmd : Candidate)
    (st : Nat × String × List String) : Nat × String × List String :=
  let sp := st.1
  let mt := st.2.1
  let bs := st.2.2
  if optTruthy query_author ∧ optTruthy bmd.author then
    let sim : ℚ :=
      (fz.tokenSetRatio (pyLower (query_author.getD "")) (pyLower (bmd.author.getD "")) : ℚ) / 100
    if sim ≥ 95 / 100 then
      (min ((sp * 115) / 100) 100,
        if strContains mt "isbn" then "fuzzy_isbn_author" else "fuzzy_author_exact",
        bs ++ ["author_exact"])
    else (sp, mt, bs)
  else (sp, mt, bs)

/-- Hard-coded score floor for the two debug titles (scraper.py lines
329-355); the price warning of lines 314-323 is print-only and not modelled. -/
def debugAdjust (title : String) (bmd : Candidate) (sp : Nat) : Nat :=
  let t := pyLower title
  if strContains t "apollo murders" || strContains t "there are places in the world" then
    let sp1 := if strContains t "apollo murders" &&
        strContains (pyLower bmd.title) "apollo murders"
      then max sp 92 else sp
    if strContains t "there are places in the world" &&
        strContains (pyLower bmd.title) "there are places in the world"
      then max sp1 92 else sp1
  else sp

/-- require_author_match gate of find_title (scraper.py lines 360-369). -/
def applyAuthorGate (fz : Fuzz) (require_author_match : Bool) (query_author : Option String)
    (bmd : Candidate) (mt : String) (found : Bool) : Bool :=
  if found && require_author_match && !(mt == "isbn_exact") && optTruthy query_author then
    if optTruthy bmd.author then
      let sim : ℚ :=
        (fz.tokenSetRatio (pyLower (query_author.getD "")) (pyLower (bmd.author.getD "")) : ℚ) / 100
      if sim < 1 / 2 then false else found
    else found
  else found

/-- Full match dictionary of the fuzzy return path (scraper.py lines 394-403). -/
def mkFullMatchData (bmd : Candidate) (mt : String) (bs : List String) : MatchData :=
  { title := bmd.title, author := bmd.author.getD "", price := bmd.price.getD "",
    url := bmd.url.getD "", cover_url := bmd.cover_url.getD "",
    isbn := bmd.isbn.getD "", match_type := mt, bonuses := some bs }

/-- Best-match display string (scraper.py lines 276-279): mentions the
author whenever the author key is present, even if empty. -/
def bestMatchStr (bmd : Candidate) : String :=
  match bmd.author with
  | some a => bmd.title ++ " by " ++ a
  | none => bmd.title

/-- Post-loop tail of find_title (scraper.py lines 272-405): score clamping,
phase-3 bonuses, debug adjustment, threshold test and author gate. -/
def finalize (fz : Fuzz) (fuzz_thresh : Nat) (require_author_match : Bool)
    (title : String) (query_isbn query_author : Option String)
    (best : ℚ × Int × Option Candidate) : FindResult :=
  match best.2.2 with
  | none => FindResult.ok false "N/A" 0 none
  | some bmd =>
    let best_match := bestMatchStr bmd
    let score0 : Nat := min best.1.floor.toNat 100
    let st1 := isbnPartialStep query_isbn bmd score0
    let st2 := authorBonusStep fz query_author bmd st1
    let sp3 : Nat := min st2.1 100
    let sp4 := debugAdjust title bmd sp3
    let found0 : Bool := decide (fuzz_thresh ≤ sp4)
    let found := applyAuthorGate fz require_author_match query_author bmd st2.2.1 found0
    FindResult.ok found best_match sp4 (some (mkFullMatchData bmd st2.2.1 st2.2.2))

/-- find_title from search/scraper.py.  The scraper state used by the method
(fuzz_thresh, require_author_match, query_authors) is passed explicitly, and
the fuzzywuzzy module as fz.  The post-loop tail receives the query_author
local as the loop left it, i.e. rebound by line 250 whenever that line ran. -/
def find_title (fz : Fuzz) (fuzz_thresh : Nat) (require_author_match : Bool)
    (query_authors : String → Option String) (title : String)
    (book_data : List Candidate) (query_isbn query_author : Option String) : FindResult :=
  if book_data = [] then FindResult.ok false "N/A" 0 none
  else
    match phase1 query_isbn book_data with
    | some book =>
      FindResult.ok true (book.title ++ " by " ++ book.author.getD "Unknown") 100
        (some (phase1Data book))
    | none =>
      let titles := book_data.map (fun b => b.title)
      if titles = [] then FindResult.truncated false "N/A" 0
      else
        let query_variations := get_title_variations title
        let query_variations := if query_variations = [] then [title] else query_variations
        let pairs := candidateVariations titles
        let best := fuzzyLoop fz query_authors title titles book_data query_variations pairs
          query_author
        finalize fz fuzz_thresh require_author_match title query_isbn best.2 best.1

/-- Equality-based stand-in for the fuzzywuzzy ratios, used in witnesses. -/
def eqFuzz : Fuzz :=
  ⟨fun a b => if a = b then 100 else 0, fun a b => if a = b then 100 else 0,
   fun a b => if a = b then 100 else 0, fun a b => if a = b then 100 else 0⟩

/-- Empty author lookup (no CSV loaded), used in witnesses. -/
def noAuthors : String → Option String := fun _ => none

/-- Whether the candidate record at the given index carries an author key
(present even when its value is the empty string), the membership test of
scraper.py line 248. -/
def hasAuthorAt (book_data : List Candidate) (idx : Nat) : Bool :=
  match book_data[idx]? with
  | some bk => bk.author.isSome
  | none => false

/-- The query_author local as the fuzzy loop leaves it for the post-loop
tail of find_title: the line-250 rebinding runs on some iteration exactly
when the query_authors entry for the query title is truthy and some
candidate record carries an author key (every candidate contributes at
least one variation pair and every pair index is in range), and the
assigned value is the same on every iteration, so the final value is the
lowercased lookup entry in that case and the find_title argument otherwise.
This equivalence is proved below (fuzzyLoop_snd). -/
def effectiveQueryAuthor (query_authors : String → Option String) (title : String)
    (query_author : Option String) (book_data : List Candidate) : Option String :=
  if (optTruthy (query_authors title) && book_data.any (fun b => b.author.isSome)) = true then
    some (pyLower ((query_authors title).getD ""))
  else query_author

/-! ### C1: the ISBN exact-match fast path -/

/-- C1: with a present query ISBN, the first candidate in iteration order
whose normalized isbn lies in the query's ISBN variant set is returned
immediately with found true, score 100 and match_type isbn_exact; the
result is the same for every fuzz quadruple, so all fuzzy scoring is
bypassed, including for deliberately dissimilar titles. -/
theorem c1_isbn_exact_fast_path (fz : Fuzz) (t : Nat) (r : Bool)
    (qs : String → Option String) (title : String) (book_data : List Candidate)
    (q : String) (query_author : Option String) (c : Candidate)
    (hq : q ≠ "")
    (hfind : book_data.find? (isbnHit (get_all_isbn_variants q)) = some c) :
    find_title fz t r qs title book_data (some q) query_author =
      FindResult.ok true (c.title ++ " by " ++ c.author.getD "Unknown") 100
        (some (phase1Data c)) ∧
    (phase1Data c).match_type = "isbn_exact" := by
  have hbd : book_data ≠ [] := by
    intro he
    subst he
    simp [List.find?] at hfind
  have hp1 : phase1 (some q) book_data = some c := by
    simp only [phase1, if_pos hq]
    exact hfind
  exact ⟨by simp only [find_title, if_neg hbd, hp1], rfl⟩

/-- C1 witness: the claim's concrete cross-format instance, a query with
ISBN 9780262046480 matching a candidate with ISBN 0262046482 whose title is
deliberately dissimilar from the query title. -/
theorem c1_isbn_exact_fast_path_witness :
    find_title eqFuzz 90 false noAuthors "The Memory Police"
      [{ title := "Quantum Gravity Socks", isbn := some "0262046482" }]
      (some "9780262046480") none =
      FindResult.ok true "Quantum Gravity Socks by Unknown" 100
        (some (phase1Data { title := "Quantum Gravity Socks", isbn := some "0262046482" })) :=
  (c1_isbn_exact_fast_path eqFuzz 90 false noAuthors "The Memory Police"
    [{ title := "Quantum Gravity Socks", isbn := some "0262046482" }]
    "9780262046480" none { title := "Quantum Gravity Socks", isbn := some "0262046482" }
    (by decide) (by decide)).1

/-! ### C9: the pair weighting -/

/-- C9: for every pair of variation strings and every fuzz quadruple, the
combined pair score used by the fuzzy loop weights the four measures by
0.15, 0.20, 0.25, 0.40, except that when either string is longer than 50
characters the alternate weighting 0.10, 0.10, 0.20, 0.60 is used. -/
theorem c9_weighted_combination (fz : Fuzz) (qv pc : String) :
    baseWeighted fz qv pc =
      if qv.length > 50 ∨ pc.length > 50 then
        (fz.ratio qv pc : ℚ) * (10 / 100) + (fz.partRatio qv pc : ℚ) * (10 / 100) +
          (fz.tokenSortRatio qv pc : ℚ) * (20 / 100) +
          (fz.tokenSetRatio qv pc : ℚ) * (60 / 100)
      else
        (fz.ratio qv pc : ℚ) * (15 / 100) + (fz.partRatio qv pc : ℚ) * (20 / 100) +
          (fz.tokenSortRatio qv pc : ℚ) * (25 / 100) +
          (fz.tokenSetRatio qv pc : ℚ) * (40 / 100) := by
  unfold baseWeighted
  split
  · rfl
  · rfl

/-! ### C5: defensive degradation of the scorer -/

def FindResult.isOk : FindResult → Bool
  | .ok _ _ _ _ => true
  | .truncated _ _ _ => false

theorem finalize_isOk (fz : Fuzz) (t : Nat) (r : Bool) (title : String)
    (qisbn qauthor : Option String) (best : ℚ × Int × Option Candidate) :
    (finalize fz t r title qisbn qauthor best).isOk = true := by
  unfold finalize
  cases hb : best.2.2 with
  | none => simp only [hb]; rfl
  | some bmd => simp only [hb]; rfl

/-- C5: the scorer degrades instead of failing: an empty candidate list
yields the well-formed not-found result with score 0, and for every input
whatsoever the result is the normal four-component shape (the three-field
early return behind the empty-titles check is unreachable, every defensive
branch included), so callers can always unpack it. -/
theorem c5_defensive_degradation :
    (∀ (fz : Fuzz) (t : Nat) (r : Bool) (qs : String → Option String)
      (title : String) (qisbn qauthor : Option String),
      find_title fz t r qs title [] qisbn qauthor = FindResult.ok false "N/A" 0 none) ∧
    (∀ (fz : Fuzz) (t : Nat) (r : Bool) (qs : String → Option String)
      (title : String) (bd : List Candidate) (qisbn qauthor : Option String),
      (find_title fz t r qs title bd qisbn qauthor).isOk = true) := by
  constructor
  · intro fz t r qs title qisbn qauthor
    simp [find_title]
  · intro fz t r qs title bd qisbn qauthor
    by_cases hbd : bd = []
    · subst hbd
      simp [find_title, FindResult.isOk]
    · have htitles : bd.map (fun b => b.title) ≠ [] := by
        intro he
        exact hbd (List.map_eq_nil_iff.mp he)
      cases hp : phase1 qisbn bd with
      | some c =>
        simp only [find_title, if_neg hbd, hp, FindResult.isOk]
      | none =>
        simp only [find_title, if_neg hbd, hp, if_neg htitles]
        exact finalize_isOk _ _ _ _ _ _ _

/-! ### C2 and C10: the found flag after fuzzy scoring -/

/-- Author-mismatch rejection condition, written from the spec text: the
policy is enabled, the resolved match type is not isbn_exact, a query author
is present, the matched candidate carries a non-empty author, and the
token-set similarity of the two lowercased authors is below 0.5. -/
def rejectedByAuthorPolicy (fz : Fuzz) (require_author_match : Bool)
    (query_author : Option String) (md : MatchData) : Bool :=
  require_author_match && !(md.match_type == "isbn_exact") && optTruthy query_author &&
    !(md.author == "") &&
    decide ((fz.tokenSetRatio (pyLower (query_author.getD "")) (pyLower md.author) : ℚ) / 100 < 1 / 2)

theorem applyAuthorGate_iff (fz : Fuzz) (r : Bool) (qa : Option String)
    (bmd : Candidate) (mt : String) (bs : List String) (t sp : Nat) :
    (applyAuthorGate fz r qa bmd mt (decide (t ≤ sp)) = true ↔
      (t ≤ sp ∧ rejectedByAuthorPolicy fz r qa (mkFullMatchData bmd mt bs) = false)) := by
  have hmda : (mkFullMatchData bmd mt bs).author = bmd.author.getD "" := rfl
  have hmdt : (mkFullMatchData bmd mt bs).match_type = mt := rfl
  unfold applyAuthorGate rejectedByAuthorPolicy optTruthy
  rw [hmda, hmdt]
  by_cases hts : t ≤ sp <;> cases r <;> by_cases hmt : mt = "isbn_exact" <;>
    by_cases hqa : (qa.getD "" ≠ "") <;> by_cases hba : (bmd.author.getD "" ≠ "") <;>
    by_cases hsim :
      ((fz.tokenSetRatio (pyLower (qa.getD "")) (pyLower (bmd.author.getD "")) : ℚ) / 100 < 1 / 2) <;>
    simp_all [beq_iff_eq]

theorem finalize_found_iff (fz : Fuzz) (t : Nat) (r : Bool) (title : String)
    (qisbn qauthor : Option String) (best : ℚ × Int × Option Candidate)
    (f : Bool) (m : String) (s : Nat) (md : MatchData)
    (h : finalize fz t r title qisbn qauthor best = FindResult.ok f m s (some md)) :
    (f = true ↔ (t ≤ s ∧ rejectedByAuthorPolicy fz r qauthor md = false)) := by
  unfold finalize at h
  cases hb : best.2.2 with
  | none =>
    rw [hb] at h
    simp only [FindResult.ok.injEq] at h
    exact absurd h.2.2.2 (by simp)
  | some bmd =>
    rw [hb] at h
    simp only [FindResult.ok.injEq] at h
    obtain ⟨hF, -, hS, hMD⟩ := h
    obtain hmd := Option.some_inj.mp hMD
    rw [← hF, ← hS, ← hmd]
    exact applyAuthorGate_iff fz r qauthor bmd _ _ t _

theorem qaRebind_char (qs : String → Option String) (title : String)
    (bd : List Candidate) (idx : Nat) (qa : Option String) :
    qaRebind qs title bd idx qa =
      if (optTruthy (qs title) && hasAuthorAt bd idx) = true then
        some (pyLower ((qs title).getD "")) else qa := by
  unfold qaRebind hasAuthorAt optTruthy
  cases hq : qs title with
  | none => simp
  | some a =>
    by_cases ha : a = ""
    · subst ha
      simp
    · cases hb : bd[idx]? with
      | none => simp [ha]
      | some bk =>
        cases hau : bk.author with
        | none => simp [ha, hau]
        | some x => simp [ha, hau]

theorem loopStep_snd (fz : Fuzz) (qs : String → Option String) (title : String)
    (titles : List String) (bd : List Candidate)
    (st : (ℚ × Int × Option Candidate) × Option String) (qv : String) (p : String × Nat) :
    (loopStep fz qs title titles bd st qv p).2 = qaRebind qs title bd p.2 st.2 := rfl

theorem foldl_loopStep_snd (fz : Fuzz) (qs : String → Option String) (title : String)
    (titles : List String) (bd : List Candidate) (qv : String) :
    ∀ (pairs : List (String × Nat)) (st : (ℚ × Int × Option Candidate) × Option String),
    (pairs.foldl (fun st2 p => loopStep fz qs title titles bd st2 qv p) st).2 =
      pairs.foldl (fun qa p => qaRebind qs title bd p.2 qa) st.2
  | [], _ => rfl
  | p :: ps, st => by
    rw [List.foldl_cons, List.foldl_cons,
      foldl_loopStep_snd fz qs title titles bd qv ps, loopStep_snd]

theorem qaRebindFold_char (qs : String → Option String) (title : String)
    (bd : List Candidate) :
    ∀ (pairs : List (String × Nat)) (qa : Option String),
    pairs.foldl (fun qa p => qaRebind qs title bd p.2 qa) qa =
      if (pairs.any (fun p => optTruthy (qs title) && hasAuthorAt bd p.2)) = true then
        some (pyLower ((qs title).getD "")) else qa
  | [], qa => by simp
  | p :: ps, qa => by
    rw [List.foldl_cons, qaRebindFold_char qs title bd ps, qaRebind_char, List.any_cons]
    cases hc : (optTruthy (qs title) && hasAuthorAt bd p.2) with
    | false => simp only [Bool.false_or, Bool.false_eq_true, if_false]
    | true => simp only [Bool.true_or, eq_self_iff_true, if_true, ite_self]

theorem fuzzyLoop_snd_fold (fz : Fuzz) (qs : String → Option String) (title : String)
    (titles : List String) (bd : List Candidate) (pairs : List (String × Nat)) :
    ∀ (qvars : List String) (st : (ℚ × Int × Option Candidate) × Option String),
    (qvars.foldl (fun st qv => pairs.foldl
        (fun st2 p => loopStep fz qs title titles bd st2 qv p) st) st).2 =
      qvars.foldl (fun qa _ => pairs.foldl (fun qa p => qaRebind qs title bd p.2 qa) qa) st.2
  | [], _ => rfl
  | qv :: qvs, st => by
    rw [List.foldl_cons, List.foldl_cons,
      fuzzyLoop_snd_fold fz qs title titles bd pairs qvs, foldl_loopStep_snd]

theorem constFold_apply (g : Option String → Option String) (hg : ∀ x, g (g x) = g x) :
    ∀ (qvars : List String) (qa : Option String), qvars ≠ [] →
      qvars.foldl (fun qa _ => g qa) qa = g qa
  | [], _, h => absurd rfl h
  | [_], _, _ => rfl
  | _ :: qv2 :: qvs, qa, _ => by
    rw [List.foldl_cons, constFold_apply g hg (qv2 :: qvs) (g qa) (by simp), hg]

theorem candidateVariations_cover (titles : List String) (i : Nat)
    (h : i < titles.length) : ∃ v, (v, i) ∈ candidateVariations titles := by
  unfold candidateVariations
  have henum : (i, titles[i]) ∈ titles.enum :=
    List.mem_enum_iff_getElem?.mpr (List.getElem?_eq_getElem h)
  cases hvs : get_title_variations titles[i] with
  | nil =>
    exact ⟨titles[i], List.mem_flatMap.mpr ⟨(i, titles[i]), henum, by simp [hvs]⟩⟩
  | cons v0 rest =>
    exact ⟨v0, List.mem_flatMap.mpr ⟨(i, titles[i]), henum, by simp [hvs]⟩⟩

theorem candVar_any_author (qs : String → Option String) (title : String)
    (bd : List Candidate) :
    ((candidateVariations (bd.map (fun b => b.title))).any
        (fun p => optTruthy (qs title) && hasAuthorAt bd p.2)) =
      (optTruthy (qs title) && bd.any (fun b => b.author.isSome)) := by
  cases ht : optTruthy (qs title) with
  | false => simp
  | true =>
    simp only [Bool.true_and]
    rw [Bool.eq_iff_iff]
    constructor
    · intro h
      obtain ⟨p, hp, hpa⟩ := List.any_eq_true.mp h
      unfold hasAuthorAt at hpa
      cases hidx : bd[p.2]? with
      | none =>
        simp only [hidx] at hpa
        exact absurd hpa (by decide)
      | some bk =>
        simp only [hidx] at hpa
        exact List.any_eq_true.mpr ⟨bk, List.mem_iff_getElem?.mpr ⟨p.2, hidx⟩, hpa⟩
    · intro h
      obtain ⟨b, hb, hba⟩ := List.any_eq_true.mp h
      obtain ⟨i, hi⟩ := List.mem_iff_getElem?.mp hb
      obtain ⟨hlt, -⟩ := List.getElem?_eq_some.mp hi
      have hlt2 : i < (bd.map (fun b => b.title)).length := by
        rw [List.length_map]
        exact hlt
      obtain ⟨v, hv⟩ := candidateVariations_cover (bd.map (fun b => b.title)) i hlt2
      refine List.any_eq_true.mpr ⟨(v, i), hv, ?_⟩
      unfold hasAuthorAt
      simp only [hi]
      exact hba

/-- The query_author component of the loop state after the full double loop
of find_title equals effectiveQueryAuthor. -/
theorem fuzzyLoop_snd (fz : Fuzz) (qs : String → Option String) (title : String)
    (bd : List Candidate) (qvars : List String) (qauthor : Option String)
    (hqv : qvars ≠ []) :
    (fuzzyLoop fz qs title (bd.map (fun b => b.title)) bd qvars
        (candidateVariations (bd.map (fun b => b.title))) qauthor).2 =
      effectiveQueryAuthor qs title qauthor bd := by
  have hg : ∀ x, (candidateVariations (bd.map (fun b => b.title))).foldl
      (fun qa p => qaRebind qs title bd p.2 qa)
      ((candidateVariations (bd.map (fun b => b.title))).foldl
        (fun qa p => qaRebind qs title bd p.2 qa) x) =
      (candidateVariations (bd.map (fun b => b.title))).foldl
        (fun qa p => qaRebind qs title bd p.2 qa) x := by
    intro x
    simp only [qaRebindFold_char]
    cases hA : ((candidateVariations (bd.map (fun b => b.title))).any
        (fun p => optTruthy (qs title) && hasAuthorAt bd p.2)) with
    | false => simp
    | true => simp
  unfold fuzzyLoop
  rw [fuzzyLoop_snd_fold]
  rw [constFold_apply _ hg qvars _ hqv]
  rw [qaRebindFold_char]
  unfold effectiveQueryAuthor
  rw [candVar_any_author]

theorem find_title_fuzzy_found_iff (fz : Fuzz) (t : Nat) (r : Bool)
    (qs : String → Option String) (title : String) (bd : List Candidate)
    (qisbn qauthor : Option String) (f : Bool) (m : String) (s : Nat) (md : MatchData)
    (hf : phase1 qisbn bd = none)
    (hres : find_title fz t r qs title bd qisbn qauthor = FindResult.ok f m s (some md)) :
    (f = true ↔ (t ≤ s ∧
      rejectedByAuthorPolicy fz r (effectiveQueryAuthor qs title qauthor bd) md = false)) := by
  by_cases hbd : bd = []
  · subst hbd
    simp [find_title] at hres
  · have htitles : bd.map (fun b => b.title) ≠ [] := by
      intro he
      exact hbd (List.map_eq_nil_iff.mp he)
    have hqv : (if get_title_variations title = [] then [title]
        else get_title_variations title) ≠ [] := by
      split
      · simp
      · next h => exact h
    simp only [find_title, if_neg hbd, hf, if_neg htitles] at hres
    rw [fuzzyLoop_snd fz qs title bd _ qauthor hqv] at hres
    exact finalize_found_iff _ _ _ _ _ _ _ _ _ _ _ hres

/-- C2: for every run that reaches fuzzy scoring and produces a best match,
found is true exactly when the final post-bonus score is at least the
configured threshold (equality counts as found) and the match was not
rejected by the require_author_match policy; the query author the policy
consults is the find_title argument unless scraper.py line 250 rebound it
to the lowercased query_authors entry for the title (which happens exactly
when that entry is truthy and some candidate carries an author key).  In
particular, with the policy enabled, a non-isbn_exact match whose
candidate-author similarity to that query author is below 0.5 reports found
false even when its score meets the threshold. -/
theorem c2_found_iff_threshold_and_policy (fz : Fuzz) (t : Nat) (r : Bool)
    (qs : String → Option String) (title : String) (bd : List Candidate)
    (qisbn qauthor : Option String) (f : Bool) (m : String) (s : Nat) (md : MatchData)
    (hf : phase1 qisbn bd = none)
    (hres : find_title fz t r qs title bd qisbn qauthor = FindResult.ok f m s (some md)) :
    (f = true ↔ (t ≤ s ∧
      rejectedByAuthorPolicy fz r (effectiveQueryAuthor qs title qauthor bd) md = false)) :=
  find_title_fuzzy_found_iff fz t r qs title bd qisbn qauthor f m s md hf hres

unseal Rat.add Rat.mul Rat.inv in
/-- C2 witness: the query passes no author of its own, but the query_authors
lookup holds "bob" for the title, so line 250 rebinds the policy's query
author; the candidate's author "xyz" has similarity 0, the policy rejects,
and found is false despite the score meeting the threshold. -/
theorem c2_found_iff_witness :
    (false = true ↔ (80 ≤ 84 ∧ rejectedByAuthorPolicy eqFuzz true
      (effectiveQueryAuthor (fun q => if q = "abc" then some "bob" else none) "abc" none
        [{ title := "abc", author := some "xyz" }])
      { title := "abc", author := "xyz", price := "", url := "", cover_url := "",
        isbn := "", match_type := "fuzzy", bonuses := some [] } = false)) :=
  c2_found_iff_threshold_and_policy eqFuzz 80 true
    (fun q => if q = "abc" then some "bob" else none) "abc"
    [{ title := "abc", author := some "xyz" }] none none
    false "abc by xyz" 84
    { title := "abc", author := "xyz", price := "", url := "", cover_url := "",
      isbn := "", match_type := "fuzzy", bonuses := some [] }
    (by decide) (by decide)

/-- C10: with require_author_match enabled and a query author present, a
fuzzy run whose best-match candidate carries no author key or an empty one
is never rejected by the author policy: found is decided by the score
threshold alone. -/
theorem c10_no_author_no_rejection (fz : Fuzz) (t : Nat)
    (qs : String → Option String) (title : String) (bd : List Candidate)
    (qisbn qauthor : Option String) (f : Bool) (m : String) (s : Nat) (md : MatchData)
    (hf : phase1 qisbn bd = none)
    (hqa : optTruthy qauthor = true)
    (hres : find_title fz t true qs title bd qisbn qauthor = FindResult.ok f m s (some md))
    (hnoauthor : md.author = "") :
    (f = true ↔ t ≤ s) := by
  have hiff := find_title_fuzzy_found_iff fz t true qs title bd qisbn qauthor f m s md hf hres
  have hrej : rejectedByAuthorPolicy fz true (effectiveQueryAuthor qs title qauthor bd) md
      = false := by
    unfold rejectedByAuthorPolicy
    rw [hnoauthor]
    simp
  rw [hiff, hrej]
  simp

unseal Rat.add Rat.mul Rat.inv in
/-- C10 witness: the characterization applied to a run whose best match has
no author field at all: found is true from the score alone. -/
theorem c10_no_author_no_rejection_witness : ((true : Bool) = true ↔ 90 ≤ 100) :=
  c10_no_author_no_rejection eqFuzz 90 noAuthors "abc"
    [{ title := "abc" }] none (some "bob") true "abc" 100
    { title := "abc", author := "", price := "", url := "", cover_url := "",
      isbn := "", match_type := "fuzzy", bonuses := some [] }
    (by decide) (by decide) (by decide) (by decide)

/-! ## search/parallel.py — the concurrent search orchestrator

The orchestrator is modelled functionally: the fetch step (searcher.search
plus parse_books, the network and HTML collaborators) and the scoring step
(find_title, invoked through the searcher collaborator) are abstract
Except-valued functions, an exception being an error value; the rate-limit
sleep, the shared lock and the progress callback affect timing and output
only.  A run of search_all_parallel is determined by the order in which
as_completed yields the futures, modelled as the completion-order list, a
permutation of the submitted tasks; the model's searchSingle is total, so
the try/except around future.result() has no effect. -/

structure SearchTask where
  index : Nat
  title : String
  isbn : Option String := none
  author : Option String := none
deriving DecidableEq, Repr

/-- Result dictionary built by _search_single: the base keys Query, Match,
Score and index, plus the enhanced keys added only when match_data is
truthy. -/
structure TaskRes where
  query : String
  matched : String
  score : String
  index : Nat
  price : Option String
  url : Option String
  coverUrl : Option String
  isbn : Option String
  matchType : Option String
deriving DecidableEq, Repr

/-- Public result shape: the dictionary after the index key is popped. -/
structure PubRes where
  query : String
  matched : String
  score : String
  price : Option String
  url : Option String
  coverUrl : Option String
  isbn : Option String
  matchType : Option String
deriving DecidableEq, Repr

/-- result.pop of the index key (parallel.py lines 136-137). -/
def stripIndex (r : TaskRes) : PubRes :=
  { query := r.query, matched := r.matched, score := r.score, price := r.price,
    url := r.url, coverUrl := r.coverUrl, isbn := r.isbn, matchType := r.matchType }

/-- _search_single from search/parallel.py: fetch, score, and build the
result dictionary tagged with the originating task index; any error in a
collaborator is caught by the broad except and yields no result. -/
def searchSingle (fetch : SearchTask → Except String (List Candidate))
    (findT : String → List Candidate → Option String → Option String →
      Except String (Bool × String × Nat × Option MatchData))
    (task : SearchTask) : Option TaskRes :=
  match fetch task with
  | Except.error _ => none
  | Except.ok book_data =>
    match findT task.title book_data task.isbn task.author with
    | Except.error _ => none
    | Except.ok (found, choice, ratio, match_data) =>
      if book_data ≠ [] ∧ found = true then
        some { query := task.title, matched := choice, score := toString ratio ++ "%",
               index := task.index,
               price := match_data.map (fun md => md.price),
               url := match_data.map (fun md => md.url),
               coverUrl := match_data.map (fun md => md.cover_url),
               isbn := match_data.map (fun md => md.isbn),
               matchType := match_data.map (fun md => md.match_type) }
      else none

/-- Stable ascending insertion by index: the behaviour of Python's stable
results.sort with the index key. -/
def insertIdx (r : TaskRes) : List TaskRes → List TaskRes
  | [] => [r]
  | x :: xs => if r.index ≤ x.index then r :: x :: xs else x :: insertIdx r xs

def sortIdx : List TaskRes → List TaskRes
  | [] => []
  | r :: rs => insertIdx r (sortIdx rs)

/-- Results in completion order, then sorted by original task index
(parallel.py lines 116-133). -/
def sortedResults (fetch : SearchTask → Except String (List Candidate))
    (findT : String → List Candidate → Option String → Option String →
      Except String (Bool × String × Nat × Option MatchData))
    (order : List SearchTask) : List TaskRes :=
  sortIdx (order.filterMap (searchSingle fetch findT))

/-- search_all_parallel from search/parallel.py, as a function of the
completion order: collect per-task results, sort by original index, and
strip the index key. -/
def searchAllParallel (fetch : SearchTask → Except String (List Candidate))
    (findT : String → List Candidate → Option String → Option String →
      Except String (Bool × String × Nat × Option MatchData))
    (order : List SearchTask) : List PubRes :=
  (sortedResults fetch findT order).map stripIndex

/-! ### C3: strict output ordering of the batch -/

theorem searchSingle_index {fetch : SearchTask → Except String (List Candidate)}
    {findT : String → List Candidate → Option String → Option String →
      Except String (Bool × String × Nat × Option MatchData)}
    {task : SearchTask} {r : TaskRes}
    (h : searchSingle fetch findT task = some r) : r.index = task.index := by
  unfold searchSingle at h
  split at h
  · exact absurd h (by simp)
  · split at h
    · exact absurd h (by simp)
    · split at h
      · obtain rfl := Option.some_inj.mp h
        rfl
      · exact absurd h (by simp)

theorem filterMap_index_sublist (fetch : SearchTask → Except String (List Candidate))
    (findT : String → List Candidate → Option String → Option String →
      Except String (Bool × String × Nat × Option MatchData)) :
    ∀ l : List SearchTask,
      ((l.filterMap (searchSingle fetch findT)).map (fun r => r.index)).Sublist
        (l.map (fun t => t.index))
  | [] => List.Sublist.refl []
  | t :: ts => by
    rw [List.filterMap_cons]
    cases hs : searchSingle fetch findT t with
    | none =>
      exact (filterMap_index_sublist fetch findT ts).cons t.index
    | some r =>
      rw [List.map_cons, List.map_cons, searchSingle_index hs]
      exact (filterMap_index_sublist fetch findT ts).cons₂ t.index

theorem insertIdx_perm (r : TaskRes) : ∀ l : List TaskRes, List.Perm (insertIdx r l) (r :: l)
  | [] => List.Perm.refl [r]
  | x :: xs => by
    unfold insertIdx
    split
    · exact List.Perm.refl _
    · exact ((insertIdx_perm r xs).cons x).trans (List.Perm.swap r x xs)

theorem sortIdx_perm : ∀ l : List TaskRes, List.Perm (sortIdx l) l
  | [] => List.Perm.refl []
  | r :: rs => (insertIdx_perm r (sortIdx rs)).trans ((sortIdx_perm rs).cons r)

theorem insertIdx_sorted {r : TaskRes} :
    ∀ {l : List TaskRes}, List.Pairwise (fun a b => a.index ≤ b.index) l →
      List.Pairwise (fun a b => a.index ≤ b.index) (insertIdx r l)
  | [], _ => by simp [insertIdx]
  | x :: xs, h => by
    obtain ⟨hx, hxs⟩ := List.pairwise_cons.mp h
    unfold insertIdx
    split
    · refine List.pairwise_cons.mpr ⟨?_, h⟩
      intro y hy
      rcases List.mem_cons.mp hy with rfl | hy
      · omega
      · have := hx y hy
        omega
    · refine List.pairwise_cons.mpr ⟨?_, insertIdx_sorted hxs⟩
      intro y hy
      rcases List.mem_cons.mp ((insertIdx_perm r xs).mem_iff.mp hy) with rfl | hy
      · omega
      · exact hx y hy

theorem sortIdx_sorted : ∀ l : List TaskRes,
    List.Pairwise (fun a b => a.index ≤ b.index) (sortIdx l)
  | [] => List.Pairwise.nil
  | r :: rs => insertIdx_sorted (sortIdx_sorted rs)

theorem nodup_filter_len_le_one {f : TaskRes → Nat} :
    ∀ {l : List TaskRes}, (l.map f).Nodup → ∀ k,
      (l.filter (fun r => f r == k)).length ≤ 1
  | [], _, _ => by simp
  | r :: rs, h, k => by
    rw [List.map_cons, List.nodup_cons] at h
    obtain ⟨hr, hrs⟩ := h
    rw [List.filter_cons]
    split
    · rename_i hfk
      have hk : f r = k := by simpa using hfk
      have hnil : rs.filter (fun x => f x == k) = [] := by
        rw [List.filter_eq_nil_iff]
        intro x hx hfx
        apply hr
        rw [List.mem_map]
        refine ⟨x, hx, ?_⟩
        have : f x = k := by simpa using hfx
        rw [this, hk]
      simp [hnil]
    · have := nodup_filter_len_le_one hrs k
      omega

/-- C3: for every batch of tasks with unique indices and every completion
order of the workers, the pre-strip result list is strictly increasing by
originating task index, contains at most one result per task (failed or
unmatched tasks are simply absent), every result comes from some submitted
task, and the public return value is exactly that list with the index key
stripped from every entry. -/
theorem c3_batch_ordering (fetch : SearchTask → Except String (List Candidate))
    (findT : String → List Candidate → Option String → Option String →
      Except String (Bool × String × Nat × Option MatchData))
    (tasks order : List SearchTask)
    (hperm : List.Perm order tasks)
    (hnodup : (tasks.map (fun t => t.index)).Nodup) :
    List.Pairwise (fun a b => a.index < b.index) (sortedResults fetch findT order) ∧
    (∀ t ∈ tasks, ((sortedResults fetch findT order).filter
      (fun r => r.index == t.index)).length ≤ 1) ∧
    (∀ r ∈ sortedResults fetch findT order,
      ∃ t ∈ tasks, searchSingle fetch findT t = some r) ∧
    searchAllParallel fetch findT order = (sortedResults fetch findT order).map stripIndex := by
  have hnodup2 : ((order.filterMap (searchSingle fetch findT)).map (fun r => r.index)).Nodup := by
    refine (filterMap_index_sublist fetch findT order).nodup ?_
    exact ((hperm.map (fun t => t.index)).nodup_iff).mpr hnodup
  have hnodup3 : ((sortedResults fetch findT order).map (fun r => r.index)).Nodup := by
    refine (List.Perm.nodup_iff ?_).mpr hnodup2
    exact (sortIdx_perm _).map (fun r => r.index)
  refine ⟨?_, ?_, ?_, rfl⟩
  · have hle := sortIdx_sorted (order.filterMap (searchSingle fetch findT))
    have hne : List.Pairwise (fun a b : TaskRes => a.index ≠ b.index)
        (sortedResults fetch findT order) := List.pairwise_map.mp hnodup3
    exact (hle.and hne).imp (fun h => Nat.lt_of_le_of_ne h.1 h.2)
  · intro t ht
    exact nodup_filter_len_le_one hnodup3 t.index
  · intro r hr
    have hr2 : r ∈ order.filterMap (searchSingle fetch findT) :=
      (sortIdx_perm _).mem_iff.mp hr
    obtain ⟨t, ht, hst⟩ := List.mem_filterMap.mp hr2
    exact ⟨t, hperm.mem_iff.mp ht, hst⟩

/-- Fetch collaborator used by the batch witnesses: one candidate per task. -/
def wFetch : SearchTask → Except String (List Candidate) :=
  fun _ => Except.ok [{ title := "m" }]

/-- Scoring collaborator used by the batch witnesses: constant match. -/
def wFind : String → List Candidate → Option String → Option String →
    Except String (Bool × String × Nat × Option MatchData) :=
  fun _ _ _ _ => Except.ok (true, "m", 95, none)

/-- The spec's batch with indices 2, 0, 1. -/
def wTasks : List SearchTask :=
  [{ index := 2, title := "b2" }, { index := 0, title := "b0" }, { index := 1, title := "b1" }]

/-- C3 witness: the ordering theorem applied to the batch with indices
2, 0, 1 under a reversed (simulated) completion order. -/
theorem c3_batch_ordering_witness :
    List.Pairwise (fun a b => a.index < b.index) (sortedResults wFetch wFind wTasks.reverse) ∧
    (∀ t ∈ wTasks, ((sortedResults wFetch wFind wTasks.reverse).filter
      (fun r => r.index == t.index)).length ≤ 1) ∧
    (∀ r ∈ sortedResults wFetch wFind wTasks.reverse,
      ∃ t ∈ wTasks, searchSingle wFetch wFind t = some r) ∧
    searchAllParallel wFetch wFind wTasks.reverse =
      (sortedResults wFetch wFind wTasks.reverse).map stripIndex :=
  c3_batch_ordering wFetch wFind wTasks wTasks.reverse (wTasks.reverse_perm) (by decide)

/-! ### C4: partial-failure isolation -/

theorem filterMap_erase_none {fetch : SearchTask → Except String (List Candidate)}
    {findT : String → List Candidate → Option String → Option String →
      Except String (Bool × String × Nat × Option MatchData)}
    {t : SearchTask} (h : searchSingle fetch findT t = none) :
    ∀ l : List SearchTask,
      l.filterMap (searchSingle fetch findT) =
        (l.erase t).filterMap (searchSingle fetch findT)
  | [] => rfl
  | x :: xs => by
    rw [List.erase_cons]
    by_cases hx : x = t
    · subst hx
      rw [if_pos (by simp), List.filterMap_cons, h]
    · rw [if_neg (by simpa using hx), List.filterMap_cons, List.filterMap_cons,
        filterMap_erase_none h xs]

/-- C4: a task whose fetch step raises yields no result, a task whose
scoring step raises yields no result, and a task that yields no result
leaves the batch output identical to the output of the batch without that
task, whatever the completion order: one task's failure never aborts or
alters the rest of the batch. -/
theorem c4_partial_failure_isolation
    (fetch : SearchTask → Except String (List Candidate))
    (findT : String → List Candidate → Option String → Option String →
      Except String (Bool × String × Nat × Option MatchData))
    (t : SearchTask) (e : String) (order : List SearchTask) :
    (fetch t = Except.error e → searchSingle fetch findT t = none) ∧
    (∀ bd, fetch t = Except.ok bd →
      findT t.title bd t.isbn t.author = Except.error e →
      searchSingle fetch findT t = none) ∧
    (searchSingle fetch findT t = none →
      searchAllParallel fetch findT order = searchAllParallel fetch findT (order.erase t)) := by
  refine ⟨?_, ?_, ?_⟩
  · intro hf
    simp only [searchSingle, hf]
  · intro bd hf hs
    simp only [searchSingle, hf, hs]
  · intro hnone
    unfold searchAllParallel sortedResults
    rw [filterMap_erase_none hnone order]

/-- Fetch collaborator that throws exactly for the task with index 1. -/
def wFetchBoom : SearchTask → Except String (List Candidate) :=
  fun t => if t.index = 1 then Except.error "boom" else Except.ok [{ title := "m" }]

/-- The spec's 3-task batch with indices 0, 1, 2. -/
def wTasks3 : List SearchTask :=
  [{ index := 0, title := "b0" }, { index := 1, title := "b1" }, { index := 2, title := "b2" }]

/-- C4 witness: in the 3-task batch where fetch throws for index 1, the
batch output equals the output of the batch without that task, so tasks 0
and 2 return their results unaffected. -/
theorem c4_partial_failure_isolation_witness :
    searchAllParallel wFetchBoom wFind wTasks3 =
      searchAllParallel wFetchBoom wFind (wTasks3.erase { index := 1, title := "b1" }) :=
  (c4_partial_failure_isolation wFetchBoom wFind { index := 1, title := "b1" } "boom"
    wTasks3).2.2 (by decide)

/-! ## config/schema.py — the matching-weights model

Pydantic validates each Field bound in declaration order and then runs the
validate_sum field validator; the model below reports the first failure
(the claims concern acceptance versus rejection, not the error payload).
The Python field names ratio, partial_ratio, token_sort_ratio and
token_set_ratio are rendered as ratio, partRatio, tokenSortRatio and
tokenSetRatio. -/

structure MatchingWeights where
  ratio : ℚ
  partRatio : ℚ
  tokenSortRatio : ℚ
  tokenSetRatio : ℚ
deriving DecidableEq, Repr

/-- Construction of MatchingWeights: the four ge 0 / le 1 Field bounds,
then validate_sum with its 0.001 tolerance (schema.py lines 7-22). -/
def mkMatchingWeights (ratio partRatio tokenSortRatio tokenSetRatio : ℚ) :
    Except String MatchingWeights :=
  if ¬(0 ≤ ratio ∧ ratio ≤ 1) then Except.error "ratio out of range"
  else if ¬(0 ≤ partRatio ∧ partRatio ≤ 1) then Except.error "partial_ratio out of range"
  else if ¬(0 ≤ tokenSortRatio ∧ tokenSortRatio ≤ 1) then
    Except.error "token_sort_ratio out of range"
  else if ¬(0 ≤ tokenSetRatio ∧ tokenSetRatio ≤ 1) then
    Except.error "token_set_ratio out of range"
  else
    let total := ratio + partRatio + tokenSortRatio + tokenSetRatio
    if |total - 1| > 1 / 1000 then Except.error "Weights must sum to 1.0"
    else Except.ok ⟨ratio, partRatio, tokenSortRatio, tokenSetRatio⟩

/-- C8: an in-range weight set whose sum differs from 1.0 by more than the
0.001 tolerance is rejected when the configuration is constructed, before
any task exists; and an accepted configuration carries exactly the weights
it was given, so weights are never silently renormalized. -/
theorem c8_weight_sum_validation :
    (∀ r p ts tt : ℚ, 0 ≤ r → r ≤ 1 → 0 ≤ p → p ≤ 1 → 0 ≤ ts → ts ≤ 1 → 0 ≤ tt → tt ≤ 1 →
      |r + p + ts + tt - 1| > 1 / 1000 →
      ∀ w, mkMatchingWeights r p ts tt ≠ Except.ok w) ∧
    (∀ r p ts tt w, mkMatchingWeights r p ts tt = Except.ok w →
      w.ratio = r ∧ w.partRatio = p ∧ w.tokenSortRatio = ts ∧ w.tokenSetRatio = tt) := by
  constructor
  · intro r p ts tt h0 h1 h2 h3 h4 h5 h6 h7 hsum w
    unfold mkMatchingWeights
    rw [if_neg (not_not_intro ⟨h0, h1⟩), if_neg (not_not_intro ⟨h2, h3⟩),
      if_neg (not_not_intro ⟨h4, h5⟩), if_neg (not_not_intro ⟨h6, h7⟩)]
    dsimp only
    rw [if_pos hsum]
    simp
  · intro r p ts tt w h
    unfold mkMatchingWeights at h
    split at h
    · exact absurd h (by simp)
    · split at h
      · exact absurd h (by simp)
      · split at h
        · exact absurd h (by simp)
        · split at h
          · exact absurd h (by simp)
          · dsimp only at h
            split at h
            · exact absurd h (by simp)
            · obtain rfl := (Except.ok.inj h).symm
              exact ⟨rfl, rfl, rfl, rfl⟩

unseal Rat.add Rat.mul Rat.inv Rat.sub in
/-- C8 witness: the spec's weight set 0.1, 0.2, 0.3, 0.3 (sum 0.9) is
rejected at construction time: it cannot produce any accepted
configuration, in particular not a renormalized one. -/
theorem c8_weight_sum_validation_witness :
    mkMatchingWeights (1 / 10) (2 / 10) (3 / 10) (3 / 10) ≠
      Except.ok ⟨1 / 10, 2 / 10, 3 / 10, 3 / 10⟩ :=
  c8_weight_sum_validation.1 (1 / 10) (2 / 10) (3 / 10) (3 / 10)
    (by decide) (by decide) (by decide) (by decide) (by decide) (by decide)
    (by decide) (by decide) (by decide) ⟨1 / 10, 2 / 10, 3 / 10, 3 / 10⟩

end BookOutlet
